import Mathlib

/-!
Verification development for the aegis clinical-note assistant.

The Python modules under `src/aegis` are shallowly embedded as executable
Lean definitions:

* `Aegis.Fhir`   — `fhir.py` (`FHIRStore`: bundle loading, lookups, name
  formatting).  Python dicts (insertion ordered, unique keys) are modelled
  as association lists with `dget`/`dset`/`dsetdefault`/`dmodify`.
* `Aegis.Mcp`    — `mcp_server.py` drug-interaction lookup.
* `Aegis.Rag`    — `rag/retriever.py` retrieval and context formatting; the
  external embedding + vector-search boundary is a function parameter.
* `Aegis.Nodes`  — `agent/nodes.py` workflow nodes; LLM calls and MCP tool
  calls are function parameters (oracles).
* `Aegis.Llm`    — `llm.py` JSON extraction (`generate_json`,
  `_extract_json`) including a faithful model of the two regex searches
  and a JSON validity parser standing for `json.loads`.
* `Aegis.Ingest` — `rag/ingest.py` document loading.

Python string primitives (`str.strip`, `str.lower`, `str.split`,
substring membership) are modelled on `List Char`; `lower` is modelled on
the ASCII range (accented characters in the data are already lower case).
-/

namespace Aegis

/-- Whitespace test used to model Python `str.strip()` / `str.split()`
(space, tab, newline, carriage return, vertical tab, form feed). -/
def pyWsB (c : Char) : Bool :=
  c = ' ' || c = '\t' || c = '\n' || c = '\r' || c = '\x0b' || c = '\x0c'

/-- Model of Python `str.lower` on a single character (ASCII range),
written as an explicit table so that character-level facts are provable
by case analysis. -/
def pyLowerChar (c : Char) : Char :=
  match c with
  | 'A' => 'a' | 'B' => 'b' | 'C' => 'c' | 'D' => 'd' | 'E' => 'e'
  | 'F' => 'f' | 'G' => 'g' | 'H' => 'h' | 'I' => 'i' | 'J' => 'j'
  | 'K' => 'k' | 'L' => 'l' | 'M' => 'm' | 'N' => 'n' | 'O' => 'o'
  | 'P' => 'p' | 'Q' => 'q' | 'R' => 'r' | 'S' => 's' | 'T' => 't'
  | 'U' => 'u' | 'V' => 'v' | 'W' => 'w' | 'X' => 'x' | 'Y' => 'y'
  | 'Z' => 'z'
  | c => c

/-- Model of Python `str.lower` (ASCII range). -/
def pyLower (s : String) : String :=
  String.mk (s.toList.map pyLowerChar)

/-- Strip characters satisfying `pyWsB` from both ends of a char list. -/
def pyStripList (cs : List Char) : List Char :=
  ((cs.dropWhile pyWsB).reverse.dropWhile pyWsB).reverse

/-- Model of Python `str.strip()` with no arguments. -/
def pyStrip (s : String) : String :=
  String.mk (pyStripList s.toList)

/-- Dropping a prefix with `dropWhile` never lengthens a list. -/
theorem length_dropWhile_le' {α : Type} (p : α → Bool) (l : List α) :
    (l.dropWhile p).length ≤ l.length := by
  induction l with
  | nil => simp [List.dropWhile]
  | cons a l ih =>
    simp only [List.dropWhile]
    cases p a
    · simp
    · simp
      omega

/-- Model of Python `str.split()` with no arguments: maximal runs of
non-whitespace characters, empties discarded. -/
def pyWords : List Char → List (List Char)
  | [] => []
  | c :: rest =>
    if pyWsB c then pyWords rest
    else
      (c :: rest.takeWhile (fun x => ¬ pyWsB x)) ::
        pyWords (rest.dropWhile (fun x => ¬ pyWsB x))
  termination_by cs => cs.length
  decreasing_by
    · simp only [List.length_cons]; omega
    · simp only [List.length_cons]
      exact Nat.lt_succ_of_le (length_dropWhile_le' _ _)

/-- Model of Python `str.split()` returning strings. -/
def pySplitWs (s : String) : List String :=
  (pyWords s.toList).map String.mk

/-- Model of the Python substring test `needle in hay`. -/
def substrB (needle hay : List Char) : Bool :=
  hay.tails.any (fun t => needle.isPrefixOf t)

/-! ### Association lists modelling Python dicts

Python dicts preserve insertion order; updating an existing key keeps its
position, inserting a new key appends.  Keys are unique by construction. -/

/-- Model of `d.get(k)` / `d[k]` presence: first binding of `k`. -/
def dget {β : Type} : List (String × β) → String → Option β
  | [], _ => none
  | (k0, v) :: rest, k => if k0 = k then some v else dget rest k

/-- Model of `d[k] = v`: update in place, else append. -/
def dset {β : Type} : List (String × β) → String → β → List (String × β)
  | [], k, v => [(k, v)]
  | (k0, v0) :: rest, k, v =>
    if k0 = k then (k0, v) :: rest else (k0, v0) :: dset rest k v

/-- Model of `d.setdefault(k, v)` (the resulting dict). -/
def dsetdefault {β : Type} (d : List (String × β)) (k : String) (v : β) :
    List (String × β) :=
  match dget d k with
  | some _ => d
  | none => d ++ [(k, v)]

/-- Apply `f` to the value bound to `k` (no-op when `k` is absent). -/
def dmodify {β : Type} : List (String × β) → String → (β → β) → List (String × β)
  | [], _, _ => []
  | (k0, v0) :: rest, k, f =>
    if k0 = k then (k0, f v0) :: rest else (k0, v0) :: dmodify rest k f

/-- Decidable equality of `Except` results, for evaluating witnesses. -/
instance {ε α : Type} [DecidableEq ε] [DecidableEq α] : DecidableEq (Except ε α) :=
  fun a b =>
    match a, b with
    | .error x, .error y =>
      if h : x = y then isTrue (by rw [h])
      else isFalse (by intro hc; cases hc; exact h rfl)
    | .ok x, .ok y =>
      if h : x = y then isTrue (by rw [h])
      else isFalse (by intro hc; cases hc; exact h rfl)
    | .error _, .ok _ => isFalse (by intro hc; cases hc)
    | .ok _, .error _ => isFalse (by intro hc; cases hc)

end Aegis

namespace Aegis.Fhir

/-- One entry of a FHIR `HumanName` list (`fhir.py` uses `given`, `family`). -/
structure HumanName where
  given : List String
  family : Option String
deriving DecidableEq, Repr

/-- The `subject` sub-dict of a resource (`fhir.py` reads `reference`). -/
structure SubjectRef where
  reference : Option String
deriving DecidableEq, Repr

/-- A FHIR resource dict, restricted to the keys `fhir.py` reads.
Missing keys are `none` / `[]`. -/
structure Resource where
  resourceType : Option String
  id : Option String
  subject : Option SubjectRef
  name : List HumanName
deriving DecidableEq, Repr

/-- The empty resource dict (`entry.get("resource", {})` default). -/
def Resource.empty : Resource :=
  { resourceType := none, id := none, subject := none, name := [] }

/-- One bundle entry: optional `fullUrl` and optional `resource`. -/
structure BundleEntry where
  fullUrl : Option String
  resource : Option Resource
deriving DecidableEq, Repr

/-- Model of `entry.get("resource", {})`. -/
def entryResource (e : BundleEntry) : Resource :=
  e.resource.getD Resource.empty

/-- A parsed bundle JSON document (top-level keys `fhir.py` reads). -/
structure Bundle where
  resourceType : Option String
  entry : List BundleEntry
deriving DecidableEq, Repr

/-- State of `FHIRStore`: `_patients`, `_patient_index`,
`_ref_to_patient_id`, each a Python dict. -/
structure FHIRStore where
  patients : List (String × Resource)
  patient_index : List (String × List (String × List Resource))
  ref_to_patient_id : List (String × String)
deriving DecidableEq, Repr

/-- A freshly constructed `FHIRStore()`. -/
def emptyStore : FHIRStore :=
  { patients := [], patient_index := [], ref_to_patient_id := [] }

/-- First pass of `load_bundle` on one entry: register a Patient resource
and its reference aliases.  Fails (Python `KeyError`) when a Patient
resource has no `id`. -/
def pass1_entry (st : FHIRStore) (e : BundleEntry) : Except String FHIRStore :=
  let r := entryResource e
  if r.resourceType = some "Patient" then
    match r.id with
    | none => .error "KeyError: id"
    | some patient_id =>
      let patients := dset st.patients patient_id r
      let pindex := dsetdefault st.patient_index patient_id []
      let full_url := e.fullUrl.getD ""
      let refs :=
        if full_url ≠ "" then dset st.ref_to_patient_id full_url patient_id
        else st.ref_to_patient_id
      let refs := dset refs ("Patient/" ++ patient_id) patient_id
      .ok { patients := patients, patient_index := pindex, ref_to_patient_id := refs }
  else
    .ok st

/-- First pass of `load_bundle` over all entries. -/
def pass1 (st : FHIRStore) (entries : List BundleEntry) : Except String FHIRStore :=
  entries.foldlM pass1_entry st

/-- Model of `FHIRStore._resolve_patient_id`. -/
def resolve_patient_id (st : FHIRStore) (r : Resource) : Option String :=
  let ref :=
    match r.subject with
    | none => ""
    | some s => s.reference.getD ""
  if ref = "" then none
  else
    match dget st.ref_to_patient_id ref with
    | some pid => some pid
    | none =>
      if "Patient/".toList.isPrefixOf ref.toList then
        some (String.mk (ref.toList.drop 8))
      else none

/-- Model of `self._patient_index[pid].setdefault(rt, []).append(r)`. -/
def indexAppend (d : List (String × List (String × List Resource)))
    (pid rt : String) (r : Resource) :
    List (String × List (String × List Resource)) :=
  dmodify d pid (fun inner => dmodify (dsetdefault inner rt []) rt (fun l => l ++ [r]))

/-- Second pass of `load_bundle` on one entry: index a non-Patient
resource under its resolved patient. -/
def pass2_entry (st : FHIRStore) (e : BundleEntry) : FHIRStore :=
  let r := entryResource e
  let res_type := r.resourceType.getD ""
  if res_type = "Patient" then st
  else
    match resolve_patient_id st r with
    | some patient_id =>
      if patient_id ≠ "" ∧ (dget st.patient_index patient_id).isSome then
        { st with patient_index := indexAppend st.patient_index patient_id res_type r }
      else st
    | none => st

/-- Model of `FHIRStore.load_bundle` on an already-parsed bundle value. -/
def load_bundle (st : FHIRStore) (b : Bundle) : Except String FHIRStore :=
  if b.resourceType ≠ some "Bundle" then .error "Not a FHIR Bundle"
  else do
    let st1 ← pass1 st b.entry
    .ok (b.entry.foldl pass2_entry st1)

/-- Model of `FHIRStore.load_directory`: the bundles of the directory in
sorted order, loaded additively into one store. -/
def load_bundles (bundles : List Bundle) : Except String FHIRStore :=
  bundles.foldlM load_bundle emptyStore

/-- Model of `FHIRStore._format_patient_name`. -/
def format_patient_name (p : Resource) : String :=
  match p.name with
  | [] => "Desconhecido"
  | n :: _ =>
    let given := String.intercalate " " n.given
    let family := n.family.getD ""
    let s := pyStrip (given ++ " " ++ family)
    if s = "" then "Desconhecido" else s

/-- One element of the `list_patients()` result. -/
structure PatientListing where
  id : String
  name : String
deriving DecidableEq, Repr

/-- Model of `FHIRStore.list_patients`. -/
def list_patients (st : FHIRStore) : List PatientListing :=
  st.patients.map (fun p => { id := p.1, name := format_patient_name p.2 })

/-- Model of `FHIRStore.get_patient` (returns `None` when unknown). -/
def get_patient (st : FHIRStore) (patient_id : String) : Option Resource :=
  dget st.patients patient_id

/-- The nested lookup `index.get(pid, {}).get(rt, [])` on a per-patient
index dict. -/
def indexGet (d : List (String × List (String × List Resource)))
    (patient_id resource_type : String) : List Resource :=
  match dget d patient_id with
  | some inner => (dget inner resource_type).getD []
  | none => []

/-- Model of `FHIRStore.get_resources`:
`self._patient_index.get(pid, {}).get(rt, [])`. -/
def get_resources (st : FHIRStore) (patient_id resource_type : String) :
    List Resource :=
  match dget st.patient_index patient_id with
  | some inner => (dget inner resource_type).getD []
  | none => []

/-- Model of `FHIRStore.get_conditions`. -/
def get_conditions (st : FHIRStore) (patient_id : String) : List Resource :=
  get_resources st patient_id "Condition"

/-- Model of `FHIRStore.get_medications`. -/
def get_medications (st : FHIRStore) (patient_id : String) : List Resource :=
  get_resources st patient_id "MedicationRequest"

/-- Model of `FHIRStore.get_observations`. -/
def get_observations (st : FHIRStore) (patient_id : String) : List Resource :=
  get_resources st patient_id "Observation"

/-- Where the second pass files one entry: the `(patient id, resource
type)` cell of the per-patient index, or `none` when the entry is a
Patient resource or its subject does not resolve to a known patient
(read off the guards of `pass2_entry`). -/
def entryTarget (st : FHIRStore) (e : BundleEntry) : Option (String × String) :=
  let r := entryResource e
  let res_type := r.resourceType.getD ""
  if res_type = "Patient" then none
  else
    match resolve_patient_id st r with
    | some patient_id =>
      if patient_id ≠ "" ∧ (dget st.patient_index patient_id).isSome then
        some (patient_id, res_type)
      else none
    | none => none

/-- Dynamic (Python-typed) view of a lookup's return value: Python is
untyped, so `get_patient` returning `None` and an accessor returning a
list live in one value space. -/
inductive PyVal where
  | vnone
  | vres (r : Resource)
  | vlist (l : List Resource)
deriving DecidableEq, Repr

/-- The value `get_patient` actually returns, seen dynamically. -/
def get_patient_dyn (st : FHIRStore) (patient_id : String) : PyVal :=
  match dget st.patients patient_id with
  | some r => .vres r
  | none => .vnone

/-- A concrete Patient resource used by witnesses. -/
def samplePatient : Resource :=
  { resourceType := some "Patient", id := some "p1", subject := none, name := [] }

/-- A concrete Condition resource (subject referencing the sample
patient's bundle-local full url) used by witnesses. -/
def sampleCondition : Resource :=
  { resourceType := some "Condition", id := none,
    subject := some { reference := some "urn:uuid:u1" }, name := [] }

/-- A concrete Observation whose subject resolves to no known patient,
used by witnesses. -/
def strayObservation : Resource :=
  { resourceType := some "Observation", id := none,
    subject := some { reference := some "urn:uuid:missing" }, name := [] }

/-- A concrete single-patient bundle used by witnesses. -/
def sampleBundle : Bundle :=
  { resourceType := some "Bundle",
    entry :=
      [ { fullUrl := some "urn:uuid:u1", resource := some samplePatient },
        { fullUrl := none, resource := some sampleCondition },
        { fullUrl := none, resource := some strayObservation } ] }

/-- The store after the first pass of `load_bundle` on `sampleBundle`
(patient registered, index cell still empty). -/
def pass1SampleStore : FHIRStore :=
  { patients := [("p1", samplePatient)],
    patient_index := [("p1", [])],
    ref_to_patient_id := [("urn:uuid:u1", "p1"), ("Patient/p1", "p1")] }

/-- The store obtained by loading `sampleBundle` into an empty store. -/
def sampleStore : FHIRStore :=
  { patients := [("p1", samplePatient)],
    patient_index := [("p1", [("Condition", [sampleCondition])])],
    ref_to_patient_id := [("urn:uuid:u1", "p1"), ("Patient/p1", "p1")] }

/-- An Observation whose subject references, in `Patient/<id>` form, the
patient loaded from an earlier bundle; used by witnesses for the
additive (multi-bundle) loading regime. -/
def crossRefObservation : Resource :=
  { resourceType := some "Observation", id := none,
    subject := some { reference := some "Patient/p1" }, name := [] }

/-- A second bundle with no patients of its own, whose only resource
resolves to the previously loaded patient; used by witnesses. -/
def secondBundle : Bundle :=
  { resourceType := some "Bundle",
    entry := [ { fullUrl := none, resource := some crossRefObservation } ] }

end Aegis.Fhir

namespace Aegis.Llm

/-- JSON values, as produced by `json.loads`.  Number literals are kept as
their lexemes (no claim compares numeric values). -/
inductive Json where
  | jnull
  | jbool (b : Bool)
  | jnum (lit : String)
  | jstr (s : String)
  | jarr (elems : List Json)
  | jobj (fields : List (String × Json))
deriving Repr, Inhabited

/-- Whitespace accepted between JSON tokens by `json.loads`. -/
def jws (c : Char) : Bool :=
  c = ' ' || c = '\t' || c = '\n' || c = '\r'

/-- Decode one escape character of a JSON string (after a backslash). -/
def jsonEscape (c : Char) : Option Char :=
  if c = '"' then some '"'
  else if c = '\\' then some '\\'
  else if c = '/' then some '/'
  else if c = 'b' then some '\x08'
  else if c = 'f' then some '\x0c'
  else if c = 'n' then some '\n'
  else if c = 'r' then some '\r'
  else if c = 't' then some '\t'
  else none

/-- Value of a hex digit, if `c` is one. -/
def hexVal (c : Char) : Option Nat :=
  if '0' ≤ c ∧ c ≤ '9' then some (c.toNat - 48)
  else if 'a' ≤ c ∧ c ≤ 'f' then some (c.toNat - 87)
  else if 'A' ≤ c ∧ c ≤ 'F' then some (c.toNat - 55)
  else none

/-- Parse the body of a JSON string after the opening quote, decoding
escapes (`\uXXXX` is decoded as a single code point; surrogate pairing is
not modelled).  Returns the decoded string and the remaining input. -/
def parseStringBody : List Char → Option (String × List Char)
  | [] => none
  | c :: rest =>
    if c = '"' then some ("", rest)
    else if c = '\\' then
      match rest with
      | [] => none
      | 'u' :: h1 :: h2 :: h3 :: h4 :: rest2 =>
        match hexVal h1, hexVal h2, hexVal h3, hexVal h4 with
        | some a, some b, some c3, some d =>
          match parseStringBody rest2 with
          | some (s, rem) =>
            some (String.mk (Char.ofNat (((a * 16 + b) * 16 + c3) * 16 + d) :: s.toList), rem)
          | none => none
        | _, _, _, _ => none
      | e :: rest2 =>
        match jsonEscape e with
        | some d =>
          match parseStringBody rest2 with
          | some (s, rem) => some (String.mk (d :: s.toList), rem)
          | none => none
        | none => none
    else if c.toNat < 32 then none
    else
      match parseStringBody rest with
      | some (s, rem) => some (String.mk (c :: s.toList), rem)
      | none => none

/-- Digit test for the JSON number grammar. -/
def isDigitB (c : Char) : Bool := '0' ≤ c && c ≤ '9'

/-- Parse a JSON number lexeme
`-? (0 | [1-9][0-9]*) (. [0-9]+)? ([eE] [+-]? [0-9]+)?`.
Returns the lexeme and the remaining input. -/
def parseNumber (cs : List Char) : Option (List Char × List Char) :=
  let (sign, cs1) :=
    match cs with
    | '-' :: rest => (['-'], rest)
    | _ => (([] : List Char), cs)
  match cs1 with
  | [] => none
  | d :: rest =>
    if ¬ isDigitB d then none
    else
      let (intPart, cs2) :=
        if d = '0' then ([d], rest)
        else (d :: rest.takeWhile isDigitB, rest.dropWhile isDigitB)
      let (fracPart, cs3) :=
        match cs2 with
        | '.' :: f :: rest2 =>
          if isDigitB f then
            ('.' :: f :: rest2.takeWhile isDigitB, rest2.dropWhile isDigitB)
          else (([] : List Char), cs2)
        | _ => (([] : List Char), cs2)
      match cs3 with
      | e :: rest3 =>
        if e = 'e' ∨ e = 'E' then
          let (expSign, cs4) :=
            match rest3 with
            | '+' :: r => (['+'], r)
            | '-' :: r => (['-'], r)
            | _ => (([] : List Char), rest3)
          match cs4 with
          | x :: rest4 =>
            if isDigitB x then
              some (sign ++ intPart ++ fracPart ++ [e] ++ expSign ++
                      (x :: rest4.takeWhile isDigitB),
                    rest4.dropWhile isDigitB)
            else some (sign ++ intPart ++ fracPart, cs3)
          | [] => some (sign ++ intPart ++ fracPart, cs3)
        else some (sign ++ intPart ++ fracPart, cs3)
      | [] => some (sign ++ intPart ++ fracPart, cs3)

mutual

/-- Fuel-indexed recursive-descent parser for one JSON value; models the
grammar accepted by `json.loads` (without the `NaN`/`Infinity`
extensions, which no claim exercises). -/
def parseValue : Nat → List Char → Option (Json × List Char)
  | 0, _ => none
  | fuel + 1, cs =>
    let cs := cs.dropWhile jws
    match cs with
    | [] => none
    | '"' :: rest =>
      match parseStringBody rest with
      | some (s, rem) => some (.jstr s, rem)
      | none => none
    | '{' :: rest =>
      match rest.dropWhile jws with
      | '}' :: rem => some (.jobj [], rem)
      | _ =>
        match parseObjFields fuel rest with
        | some (fields, rem) => some (.jobj fields, rem)
        | none => none
    | '[' :: rest =>
      match rest.dropWhile jws with
      | ']' :: rem => some (.jarr [], rem)
      | _ =>
        match parseArrElems fuel rest with
        | some (elems, rem) => some (.jarr elems, rem)
        | none => none
    | 't' :: rest =>
      match rest with
      | 'r' :: 'u' :: 'e' :: rem => some (.jbool true, rem)
      | _ => none
    | 'f' :: rest =>
      match rest with
      | 'a' :: 'l' :: 's' :: 'e' :: rem => some (.jbool false, rem)
      | _ => none
    | 'n' :: rest =>
      match rest with
      | 'u' :: 'l' :: 'l' :: rem => some (.jnull, rem)
      | _ => none
    | c :: _ =>
      if c = '-' ∨ isDigitB c then
        match parseNumber cs with
        | some (lit, rem) => some (.jnum (String.mk lit), rem)
        | none => none
      else none

/-- Parse the comma-separated fields of a JSON object (at least one). -/
def parseObjFields : Nat → List Char → Option (List (String × Json) × List Char)
  | 0, _ => none
  | fuel + 1, cs =>
    match cs.dropWhile jws with
    | '"' :: rest =>
      match parseStringBody rest with
      | some (key, rem1) =>
        match rem1.dropWhile jws with
        | ':' :: rem2 =>
          match parseValue fuel rem2 with
          | some (v, rem3) =>
            match rem3.dropWhile jws with
            | ',' :: rem4 =>
              match parseObjFields fuel rem4 with
              | some (fields, rem5) => some ((key, v) :: fields, rem5)
              | none => none
            | '}' :: rem4 => some ([(key, v)], rem4)
            | _ => none
          | none => none
        | _ => none
      | none => none
    | _ => none

/-- Parse the comma-separated elements of a JSON array (at least one). -/
def parseArrElems : Nat → List Char → Option (List Json × List Char)
  | 0, _ => none
  | fuel + 1, cs =>
    match parseValue fuel cs with
    | some (v, rem) =>
      match rem.dropWhile jws with
      | ',' :: rem2 =>
        match parseArrElems fuel rem2 with
        | some (elems, rem3) => some (v :: elems, rem3)
        | none => none
      | ']' :: rem2 => some ([v], rem2)
      | _ => none
    | none => none

end

/-- Model of `json.loads`: parse one value, allow trailing whitespace,
reject extra data.  `none` stands for `json.JSONDecodeError`. -/
def json_loads (s : String) : Option Json :=
  match parseValue (s.length + 2) s.toList with
  | some (j, rest) => if rest.dropWhile jws = [] then some j else none
  | none => none

/-- Whitespace class of the regex `\s` (ASCII part). -/
def reWs (c : Char) : Bool :=
  c = ' ' || c = '\t' || c = '\n' || c = '\r' || c = '\x0b' || c = '\x0c'

/-- Drop a literal string prefix, or fail. -/
def dropLit (lit : String) (cs : List Char) : Option (List Char) :=
  if lit.toList.isPrefixOf cs then some (cs.drop lit.length) else none

/-- After the closing brace candidate of the fenced regex, the tail must be
whitespace and then three backticks. -/
def closesFence (rest : List Char) : Bool :=
  "```".toList.isPrefixOf (rest.dropWhile reWs)

/-- Lazy scan of `(\{.*?\})\s*` followed by three backticks (DOTALL): take
the shortest body ending at a brace whose tail closes the fence.
`accRev` holds the consumed body characters in reverse. -/
def fencedBody (accRev : List Char) : List Char → Option (List Char)
  | [] => none
  | c :: rest =>
    if c = '}' ∧ closesFence rest then some ((c :: accRev).reverse)
    else fencedBody (c :: accRev) rest

/-- Try the fenced-block regex anchored at the current position. -/
def tryFencedAt (cs : List Char) : Option (List Char) :=
  match dropLit "```" cs with
  | none => none
  | some cs1 =>
    let cs2 :=
      match dropLit "json" cs1 with
      | some x => x
      | none => cs1
    match cs2.dropWhile reWs with
    | '{' :: rest => fencedBody ['{'] rest
    | _ => none

/-- Leftmost search for the fenced regex (group 1 of the Python pattern
matching three backticks, optional `json`, whitespace, `\{.*?\}` lazily,
whitespace, three backticks, with DOTALL). -/
def fencedSearch : List Char → Option (List Char)
  | [] => none
  | c :: rest =>
    match tryFencedAt (c :: rest) with
    | some g => some g
    | none => fencedSearch rest

/-- Character test: not a closing brace. -/
def notCloseB (c : Char) : Bool := ¬ c = '}'

/-- Character test: not an opening brace. -/
def notOpenB (c : Char) : Bool := ¬ c = '{'

/-- Greedy `.*\}` after an opening brace: consume up to the last closing
brace of the remaining text, or fail when none exists. -/
def greedyBody (cs : List Char) : Option (List Char) :=
  let r := cs.reverse.dropWhile notCloseB
  if r = [] then none else some r.reverse

/-- Leftmost search for the raw regex `\{.*\}` with DOTALL (greedy). -/
def rawSearch : List Char → Option (List Char)
  | [] => none
  | c :: rest =>
    if c = '{' then
      match greedyBody rest with
      | some body => some ('{' :: body)
      | none => rawSearch rest
    else rawSearch rest

/-- The span from the first opening brace to the last closing brace of
the text (empty when the braces do not exist in that order). -/
def spanOf (cs : List Char) : List Char :=
  ((cs.dropWhile notOpenB).reverse.dropWhile notCloseB).reverse

/-- Declarative description of the greedy raw span: everything from the
first opening brace to the last closing brace, when that span is at least
two characters long. -/
def greedySpanSpec (cs : List Char) : Option (List Char) :=
  if 2 ≤ (spanOf cs).length then some (spanOf cs) else none

/-- Modelled from the spec: the "first top-level `{...}` span in the
text" — from the first opening brace to its balanced closing brace
(nesting-aware brace counting; string contents are not special-cased, as
the spec's wording does not mention them). -/
def firstTopLevelSpan (s : String) : Option String :=
  go (s.toList.dropWhile (fun c => ¬ c = '{'))
where
  /-- Balanced scan from an opening brace. -/
  go : List Char → Option String
  | '{' :: rest => scan 1 ['{'] rest
  | _ => none
  /-- Scan with the current nesting depth and the reversed accumulator. -/
  scan : Nat → List Char → List Char → Option String
  | _, _, [] => none
  | depth, accRev, c :: rest =>
    if c = '{' then scan (depth + 1) (c :: accRev) rest
    else if c = '}' then
      match depth with
      | 0 => none
      | 1 => some (String.mk ((c :: accRev).reverse))
      | d + 2 => scan (d + 1) (c :: accRev) rest
    else scan depth (c :: accRev) rest

/-- Python exceptions surfaced by `llm.py`'s JSON plumbing. -/
inductive PyErr where
  | jsonDecode (candidate : String)
  | valueError (msg : String)
deriving DecidableEq, Repr

/-- Model of `llm._extract_json`: fenced regex first, then the greedy raw
regex, then `ValueError` with a 200-character prefix of the text.  A
candidate that fails `json.loads` raises `json.JSONDecodeError`
(modelled as `PyErr.jsonDecode` carrying the candidate). -/
def extract_json (text : String) : Except PyErr Json :=
  match fencedSearch text.toList with
  | some grp =>
    let cand := String.mk grp
    match json_loads cand with
    | some j => .ok j
    | none => .error (.jsonDecode cand)
  | none =>
    match rawSearch text.toList with
    | some grp =>
      let cand := String.mk grp
      match json_loads cand with
      | some j => .ok j
      | none => .error (.jsonDecode cand)
    | none =>
      .error (.valueError ("Could not extract JSON from LLM response: " ++
        String.mk (text.toList.take 200)))

/-- Model of `llm.generate_json`.  The first, structured-mode request is
represented by its response content (`none` models the `KeyError` branch
of a malformed response shape); the second, unconstrained request by the
raw text it would return.  When the structured content fails
`json.loads`, the fallback runs `extract_json` on the raw text. -/
def generate_json (structuredContent : Option String) (raw : String) :
    Except PyErr Json :=
  match structuredContent with
  | some content =>
    match json_loads content with
    | some j => .ok j
    | none => extract_json raw
  | none => extract_json raw

end Aegis.Llm

namespace Aegis.Mcp

/-- The `DRUG_INTERACTIONS` table of `mcp_server.py`.  Python keys it by
two-element `frozenset`s; here each key is the pair of distinct drug
names, compared unordered by `pairLookup`. -/
def DRUG_INTERACTIONS : List ((String × String) × String) :=
  [ (("losartana", "espironolactona"),
      "Risco de hipercalemia. Monitorar potássio sérico regularmente."),
    (("losartana", "enalapril"),
      "Duplo bloqueio do SRAA. Risco aumentado de hipotensão, hipercalemia e insuficiência renal. Evitar associação."),
    (("metformina", "contraste iodado"),
      "Risco de acidose lática. Suspender metformina 48h antes e após procedimentos com contraste iodado."),
    (("metformina", "álcool"),
      "Risco aumentado de acidose lática. Orientar paciente a evitar consumo excessivo de álcool."),
    (("losartana", "ibuprofeno"),
      "AINEs reduzem o efeito anti-hipertensivo e aumentam risco de lesão renal. Evitar uso prolongado."),
    (("losartana", "diclofenaco"),
      "AINEs reduzem o efeito anti-hipertensivo e aumentam risco de lesão renal. Evitar uso prolongado."),
    (("hidroclorotiazida", "lítio"),
      "Tiazídicos reduzem a excreção renal de lítio. Risco de toxicidade por lítio. Monitorar níveis séricos."),
    (("hidroclorotiazida", "digoxina"),
      "Hipocalemia induzida por tiazídicos potencializa toxicidade digitálica. Monitorar potássio e digoxina.") ]

/-- Model of `DRUG_INTERACTIONS.get(frozenset({a, b}))`: an entry whose
unordered key `{x, y}` equals `{a, b}`.  A `frozenset` of two equal
strings is a singleton and matches no two-element key, which the
predicate reproduces (the table's key components are pairwise distinct).
-/
def pairLookup (a b : String) : Option String :=
  (DRUG_INTERACTIONS.find?
      (fun e => (e.1.1 = a ∧ e.1.2 = b) ∨ (e.1.1 = b ∧ e.1.2 = a))).map
    (fun e => e.2)

/-- Model of `mcp_server._normalize_drug_name`: `name.strip().lower()`. -/
def normalize_drug_name (name : String) : String :=
  pyLower (pyStrip name)

/-- The interaction verdict of `verificar_interacao_medicamentosa`: the
table entry found for the normalized pair, if any. -/
def interaction_verdict (medicamento_a medicamento_b : String) : Option String :=
  pairLookup (normalize_drug_name medicamento_a) (normalize_drug_name medicamento_b)

/-- Model of `mcp_server.verificar_interacao_medicamentosa`. -/
def verificar_interacao_medicamentosa (medicamento_a medicamento_b : String) : String :=
  match interaction_verdict medicamento_a medicamento_b with
  | some interaction =>
    "⚠ Interação encontrada entre " ++ medicamento_a ++ " e " ++ medicamento_b ++
      ":\n" ++ interaction
  | none =>
    "Nenhuma interação conhecida entre " ++ medicamento_a ++ " e " ++ medicamento_b ++
      ".\nNota: esta verificação cobre apenas interações comuns pré-cadastradas. " ++
      "Consulte fontes farmacológicas completas para análise definitiva."

end Aegis.Mcp

namespace Aegis.Rag

/-- A Qdrant search hit: the payload keys `retriever.py` reads, plus the
similarity score.  The external embed + `query_points` boundary is a
function producing these. -/
structure QPoint where
  payloadText : String
  payloadSource : String
  payloadChunkIndex : Option Nat
  score : Rat
deriving DecidableEq, Repr

/-- A retrieval result dict `{text, source, chunk_index, score}`. -/
structure RChunk where
  text : String
  source : String
  chunk_index : Nat
  score : Rat
deriving DecidableEq, Repr

/-- `retriever.DEFAULT_TOP_K`. -/
def DEFAULT_TOP_K : Nat := 5

/-- `retriever.DEFAULT_SCORE_THRESHOLD`. -/
def DEFAULT_SCORE_THRESHOLD : Rat := 3 / 10

/-- Model of `retriever.retrieve`: embed the query and search the vector
index (both behind the `search` parameter), then re-shape each point's
payload into a result dict. -/
def retrieve (search : String → Nat → Rat → List QPoint)
    (query : String) (top_k : Nat) (score_threshold : Rat) : List RChunk :=
  (search query top_k score_threshold).map
    (fun p =>
      { text := p.payloadText, source := p.payloadSource,
        chunk_index := p.payloadChunkIndex.getD 0, score := p.score })

/-- Two-decimal rendering of a score, modelling the `:.2f` format (round
half away from zero; the tie-rounding detail is irrelevant to the claims,
which compare both sides under the same rendering). -/
def formatScore (q : Rat) : String :=
  let a := |q|
  let cents := (a.num.toNat * 200 + a.den) / (2 * a.den)
  let sign := if q < 0 then "-" else ""
  let frac := cents % 100
  sign ++ toString (cents / 100) ++ "." ++
    (if frac < 10 then "0" else "") ++ toString frac

/-- Model of `retriever.format_context`. -/
def format_context (results : List RChunk) : String :=
  match results with
  | [] => "Nenhuma diretriz relevante encontrada."
  | _ =>
    String.intercalate "\n\n---\n\n"
      (results.map
        (fun r =>
          "[Fonte: " ++ r.source ++ " | Relevância: " ++ formatScore r.score ++
            "]\n" ++ r.text))

end Aegis.Rag

namespace Aegis.Nodes

open Aegis.Fhir Aegis.Rag Aegis.Llm

/-- An extracted-entity dict: the keys `nodes.py` reads via `.get`. -/
structure Entity where
  text : Option String
  etype : Option String
  normalized : Option String
deriving DecidableEq, Repr

/-- The `AgentState` TypedDict (`total=False`): optional fields are
absent (`none`) until their node writes them; `patient_note` is part of
the input and read unconditionally. -/
structure AgentState where
  patient_note : String
  extracted_entities : Option (List Entity)
  patient_id : Option String
  needs_retrieval : Option Bool
  retrieval_queries : Option (List String)
  guidelines : Option String
  patient_data : Option String
  report : Option (List (String × Json))
  evaluation : Option Json

/-- The lowered blob of all entity `text`/`normalized` fields joined by
spaces (`nodes._match_patient_id`). -/
def entityBlob (entities : List Entity) : String :=
  pyLower
    (String.intercalate " "
      (entities.map (fun e => e.text.getD "" ++ " " ++ e.normalized.getD "")))

/-- One loop test of `_match_patient_id`: some token of the patient's
lowered name longer than two characters occurs in the blob. -/
def patientNameMatches (blob : String) (p : PatientListing) : Bool :=
  (pySplitWs (pyLower p.name)).any
    (fun part => decide (2 < part.length) && substrB part.toList blob.toList)

/-- The `for p in patients` loop of `_match_patient_id`. -/
def matchLoop (blob : String) : List PatientListing → Option String
  | [] => none
  | p :: rest =>
    if patientNameMatches blob p then some p.id else matchLoop blob rest

/-- Model of `nodes._match_patient_id`.  `patients` is the store's
`list_patients()` output (load order). -/
def match_patient_id (patients : List PatientListing) (entities : List Entity) :
    String :=
  match patients with
  | [] => ""
  | p0 :: rest =>
    let entity_texts := entityBlob entities
    match matchLoop entity_texts (p0 :: rest) with
    | some pid => pid
    | none => p0.id

/-- Model of the `parse_note` node.  `extractEntities` stands for the
`entities` key of `llm.extract_entities`' result (`none` models a result
dict without that key); returns the node's two state updates. -/
def parse_note (extractEntities : String → Option (List Entity))
    (patients : List PatientListing) (state : AgentState) :
    List Entity × String :=
  let entities := (extractEntities state.patient_note).getD []
  (entities, match_patient_id patients entities)

/-- The per-query retrieval call of the `retrieve_guidelines` node:
`retrieve(query, top_k=3)` with the default score threshold. -/
def node_retrieve (search : String → Nat → Rat → List QPoint) (query : String) :
    List RChunk :=
  retrieve search query 3 DEFAULT_SCORE_THRESHOLD

/-- Stable descending sort by score, modelling
`all_results.sort(key=lambda r: r["score"], reverse=True)` (CPython's
sort is stable; insertion sort with this relation is the same stable
descending order). -/
def sortByScoreDesc (l : List RChunk) : List RChunk :=
  l.insertionSort (fun a b => b.score ≤ a.score)

/-- The descending-score relation is total. -/
instance : IsTotal RChunk (fun a b => b.score ≤ a.score) :=
  ⟨fun a b => le_total b.score a.score⟩

/-- The descending-score relation is transitive. -/
instance : IsTrans RChunk (fun a b => b.score ≤ a.score) :=
  ⟨fun _ _ _ hab hbc => le_trans hbc hab⟩

/-- Model of the `retrieve_guidelines` node: short-circuit on an empty
query list, else fan out per query, deduplicate by exact chunk text with
a seen-set, sort by descending score, cap at five, format. -/
def retrieve_guidelines (search : String → Nat → Rat → List QPoint)
    (state : AgentState) : String :=
  let queries := state.retrieval_queries.getD []
  match queries with
  | [] => "Nenhuma consulta de diretriz solicitada."
  | _ =>
    let acc :=
      queries.foldl
        (fun (acc : List RChunk × List String) query =>
          (node_retrieve search query).foldl
            (fun (acc2 : List RChunk × List String) (r : RChunk) =>
              if r.text ∈ acc2.2 then acc2
              else (acc2.1 ++ [r], acc2.2 ++ [r.text]))
            acc)
        ([], [])
    format_context ((sortByScoreDesc acc.1).take 5)

/-- Deduplication by exact chunk text, first occurrence winning, with the
already-seen texts threaded explicitly. -/
def dedupGo (seen : List String) : List RChunk → List RChunk
  | [] => []
  | r :: rest =>
    if r.text ∈ seen then dedupGo seen rest
    else r :: dedupGo (seen ++ [r.text]) rest

/-- Deduplication by exact chunk text over the concatenated per-query
results, first occurrence winning. -/
def dedupByText (l : List RChunk) : List RChunk :=
  dedupGo [] l

/-- Model of the `fetch_patient_data` node; the four MCP tool functions
are parameters. -/
def fetch_patient_data
    (consultarPaciente consultarCondicoes consultarMedicamentos
      consultarSinaisVitais : String → String)
    (state : AgentState) : String :=
  let patient_id := state.patient_id.getD ""
  if patient_id = "" then "Paciente não identificado."
  else
    String.intercalate "\n\n"
      [consultarPaciente patient_id, consultarCondicoes patient_id,
        consultarMedicamentos patient_id, consultarSinaisVitais patient_id]

/-- The fixed zero-score evaluation returned when no report exists:
`{"overall": {"score": 0, "feedback": "Nenhum relatório gerado."}}`. -/
def zeroEvaluation : Json :=
  .jobj [("overall",
    .jobj [("score", .jnum "0"), ("feedback", .jstr "Nenhum relatório gerado.")])]

/-- Model of the `evaluate_report` node; the LLM evaluation caller is a
parameter. -/
def evaluate_report (llmEvaluateReport : List (String × Json) → Json)
    (state : AgentState) : Json :=
  let report := state.report.getD []
  match report with
  | [] => zeroEvaluation
  | _ => llmEvaluateReport report

/-- A fresh state carrying only the input note, used by witnesses. -/
def freshState : AgentState :=
  { patient_note := "nota", extracted_entities := none, patient_id := none,
    needs_retrieval := none, retrieval_queries := none, guidelines := none,
    patient_data := none, report := none, evaluation := none }

/-- A two-query search stub returning one chunk text (`"dup"`) under both
queries, used by witnesses. -/
def sampleSearch : String → Nat → Rat → List QPoint := fun q _ _ =>
  if q = "q1" then
    [ { payloadText := "dup", payloadSource := "s1", payloadChunkIndex := some 0,
        score := 9 / 10 },
      { payloadText := "x", payloadSource := "s1", payloadChunkIndex := some 1,
        score := 5 / 10 } ]
  else if q = "q2" then
    [ { payloadText := "dup", payloadSource := "s2", payloadChunkIndex := some 0,
        score := 8 / 10 },
      { payloadText := "y", payloadSource := "s2", payloadChunkIndex := some 2,
        score := 7 / 10 } ]
  else []

/-- The fresh state with two retrieval queries, used by witnesses. -/
def queriesState : AgentState :=
  { freshState with retrieval_queries := some ["q1", "q2"] }

end Aegis.Nodes

namespace Aegis.Ingest

/-- The final path component (`pathlib.Path.name` for the paths the
pipeline meets). -/
def lastComponent (p : String) : String :=
  String.mk ((p.toList.reverse.takeWhile (fun c => ¬ c = '/')).reverse)

/-- Model of `pathlib.Path.suffix`: from the last dot of the final
component, provided that dot is neither its first nor its last
character. -/
def pathSuffix (p : String) : String :=
  let name := (lastComponent p).toList
  let rev := name.reverse
  let post := rev.takeWhile (fun c => ¬ c = '.')
  if post.length = rev.length then ""
  else if rev.length - post.length - 1 = 0 then ""
  else if post = [] then ""
  else String.mk ('.' :: post.reverse)

/-- Model of `ingest.load_document`; the file readers (`read_text`,
`pypdf` extraction) are parameters.  The `.error` case models the
`ValueError` naming the offending extension. -/
def load_document (readText readPdf : String → String) (path : String) :
    Except String String :=
  let suffix := pyLower (pathSuffix path)
  if suffix = ".pdf" then .ok (readPdf path)
  else if suffix = ".txt" ∨ suffix = ".md" then .ok (readText path)
  else .error ("Unsupported file type: " ++ suffix ++ " (" ++ path ++ ")")

/-- One loaded document `{"source": filename, "text": content}`. -/
structure LoadedDoc where
  source : String
  text : String
deriving DecidableEq, Repr

/-- The directory filter of `load_all_documents`:
`path.suffix.lower() in {".txt", ".md", ".pdf"}`. -/
def supportedExt (path : String) : Bool :=
  let s := pyLower (pathSuffix path)
  s = ".txt" || s = ".md" || s = ".pdf"

/-- Model of `ingest.load_all_documents`; `paths` is the sorted directory
listing. -/
def load_all_documents (readText readPdf : String → String)
    (paths : List String) : Except String (List LoadedDoc) :=
  paths.foldlM
    (fun docs path =>
      if supportedExt path then do
        let text ← load_document readText readPdf path
        .ok (docs ++ [{ source := lastComponent path, text := text }])
      else .ok docs)
    []

end Aegis.Ingest

/-! ## Theorems -/

namespace Aegis

theorem dget_dset {β : Type} (d : List (String × β)) (k k' : String) (v : β) :
    dget (dset d k v) k' = if k = k' then some v else dget d k' := by
  induction d with
  | nil =>
    simp only [dset, dget]
  | cons hd tl ih =>
    obtain ⟨k0, v0⟩ := hd
    by_cases h0 : k0 = k
    · subst h0
      simp only [dset, if_pos rfl, dget]
      by_cases h1 : k0 = k'
      · simp [h1]
      · simp [h1]
    · simp only [dset, if_neg h0, dget]
      by_cases h1 : k0 = k'
      · have : ¬ k = k' := fun h => h0 (h1 ▸ h.symm)
        simp [h1, this]
      · simp [h1, ih]

theorem dget_append {β : Type} (d1 d2 : List (String × β)) (k : String) :
    dget (d1 ++ d2) k =
      (match dget d1 k with
       | some v => some v
       | none => dget d2 k) := by
  induction d1 with
  | nil => simp [dget]
  | cons hd tl ih =>
    obtain ⟨k0, v0⟩ := hd
    by_cases h0 : k0 = k
    · simp [dget, h0]
    · simp [dget, h0, ih]

theorem isSome_dget_dset {β : Type} (d : List (String × β)) (k k' : String) (v : β) :
    (dget (dset d k v) k').isSome = ((dget d k').isSome || decide (k = k')) := by
  rw [dget_dset]
  by_cases h : k = k'
  · simp [h]
  · simp [h]

theorem dget_dsetdefault_self {β : Type} (d : List (String × β)) (k : String) (v : β) :
    dget (dsetdefault d k v) k = some ((dget d k).getD v) := by
  unfold dsetdefault
  cases h : dget d k with
  | some x => simp [h]
  | none => rw [dget_append, h]; simp [dget]

theorem dget_dsetdefault_ne {β : Type} (d : List (String × β)) (k : String) (v : β)
    (k' : String) (h : ¬ k = k') :
    dget (dsetdefault d k v) k' = dget d k' := by
  unfold dsetdefault
  cases hk : dget d k with
  | some x => rfl
  | none =>
    rw [dget_append]
    cases hk' : dget d k' with
    | some x => rfl
    | none => simp [dget, h]

theorem isSome_dget_dsetdefault {β : Type} (d : List (String × β)) (k : String) (v : β)
    (k' : String) :
    (dget (dsetdefault d k v) k').isSome = ((dget d k').isSome || decide (k = k')) := by
  by_cases h : k = k'
  · subst h
    rw [dget_dsetdefault_self]
    simp
  · rw [dget_dsetdefault_ne d k v k' h]
    simp [h]

theorem dget_dmodify {β : Type} (d : List (String × β)) (k : String) (f : β → β)
    (k' : String) :
    dget (dmodify d k f) k' = if k = k' then (dget d k).map f else dget d k' := by
  induction d with
  | nil => simp [dmodify, dget]
  | cons hd tl ih =>
    obtain ⟨k0, v0⟩ := hd
    by_cases h0 : k0 = k
    · subst h0
      simp only [dmodify, if_pos rfl, dget]
      by_cases h1 : k0 = k'
      · simp [h1]
      · simp [h1]
    · simp only [dmodify, if_neg h0, dget]
      by_cases h1 : k0 = k'
      · have : ¬ k = k' := fun h => h0 (h1 ▸ h.symm)
        simp [h1, this]
      · simp [h1, ih]

theorem isSome_dget_dmodify {β : Type} (d : List (String × β)) (k : String) (f : β → β)
    (k' : String) :
    (dget (dmodify d k f) k').isSome = (dget d k').isSome := by
  rw [dget_dmodify]
  by_cases h : k = k'
  · subst h; simp
  · simp [h]

/-- Binding a successful `Except` computation just applies the
continuation. -/
theorem except_ok_bind {γ α β : Type} (a : α) (f : α → Except γ β) :
    (Except.ok a >>= f : Except γ β) = f a := rfl

end Aegis

namespace Aegis.Fhir

/-- C7: `formatPatientName` is total: with a missing name list, missing
given names, or missing family name it degrades to either the stripped
partial name or the `"Desconhecido"` sentinel; it never raises (it is a
total function of the resource) and never returns the empty string. -/
theorem formatPatientName_total (p : Resource) :
    format_patient_name p ≠ ""
    ∧ (p.name = [] → format_patient_name p = "Desconhecido")
    ∧ (∀ n rest, p.name = n :: rest →
        format_patient_name p = "Desconhecido"
        ∨ format_patient_name p =
            pyStrip (String.intercalate " " n.given ++ " " ++ n.family.getD "")) := by
  refine ⟨?_, ?_, ?_⟩
  · cases hn : p.name with
    | nil => simp [format_patient_name, hn]
    | cons n rest =>
      simp only [format_patient_name, hn]
      split
      · decide
      · next h => exact h
  · intro hn
    simp [format_patient_name, hn]
  · intro n rest hn
    simp only [format_patient_name, hn]
    split
    · next h => exact Or.inl rfl
    · next h => exact Or.inr rfl

/-- Witness for C7 at two concrete patient resources (one with a name
entry missing the family name, one with no name entry at all). -/
theorem formatPatientName_total_witness :
    (format_patient_name
        { resourceType := some "Patient", id := some "p1", subject := none,
          name := [{ given := ["Ana", "Maria"], family := none }] } ≠ ""
      ∧ (([({ given := ["Ana", "Maria"], family := none } : HumanName)] : List HumanName) = [] →
          format_patient_name
            { resourceType := some "Patient", id := some "p1", subject := none,
              name := [{ given := ["Ana", "Maria"], family := none }] } = "Desconhecido")
      ∧ (∀ n rest,
          ([({ given := ["Ana", "Maria"], family := none } : HumanName)] : List HumanName)
              = n :: rest →
          format_patient_name
              { resourceType := some "Patient", id := some "p1", subject := none,
                name := [{ given := ["Ana", "Maria"], family := none }] } = "Desconhecido"
            ∨ format_patient_name
                { resourceType := some "Patient", id := some "p1", subject := none,
                  name := [{ given := ["Ana", "Maria"], family := none }] }
              = pyStrip (String.intercalate " " n.given ++ " " ++ n.family.getD "")))
    ∧ format_patient_name
        { resourceType := some "Patient", id := some "p2", subject := none,
          name := [] } = "Desconhecido" :=
  ⟨formatPatientName_total _,
    (formatPatientName_total
      { resourceType := some "Patient", id := some "p2", subject := none,
        name := [] }).2.1 rfl⟩

/-- The `_patients` and `_patient_index` dicts have the same key set. -/
def keysAligned (st : FHIRStore) : Prop :=
  ∀ k, (dget st.patients k).isSome = (dget st.patient_index k).isSome

theorem keysAligned_empty : keysAligned emptyStore := by
  intro k; rfl

theorem keysAligned_pass1_entry {st st' : FHIRStore} {e : BundleEntry}
    (hok : pass1_entry st e = .ok st') (h : keysAligned st) : keysAligned st' := by
  unfold pass1_entry at hok
  by_cases hp : (entryResource e).resourceType = some "Patient"
  · simp only [hp, if_pos] at hok
    cases hid : (entryResource e).id with
    | none => rw [hid] at hok; cases hok
    | some pid =>
      rw [hid] at hok
      cases hok
      intro k
      simp only [isSome_dget_dset, isSome_dget_dsetdefault, h k]
  · simp only [hp, if_neg, if_false] at hok
    cases hok
    exact h

theorem keysAligned_pass1 {entries : List BundleEntry} :
    ∀ {st st' : FHIRStore}, pass1 st entries = .ok st' → keysAligned st →
      keysAligned st' := by
  induction entries with
  | nil =>
    intro st st' hok h
    unfold pass1 at hok
    rw [List.foldlM_nil] at hok
    cases hok
    exact h
  | cons e rest ih =>
    intro st st' hok h
    unfold pass1 at hok
    rw [List.foldlM_cons] at hok
    cases hstep : pass1_entry st e with
    | error msg => rw [hstep] at hok; cases hok
    | ok st1 =>
      rw [hstep, except_ok_bind] at hok
      exact ih hok (keysAligned_pass1_entry hstep h)

theorem pass2_entry_patients (st : FHIRStore) (e : BundleEntry) :
    (pass2_entry st e).patients = st.patients := by
  by_cases h1 : (entryResource e).resourceType.getD "" = "Patient"
  · simp [pass2_entry, h1]
  · cases h2 : resolve_patient_id st (entryResource e) with
    | none => simp [pass2_entry, h1, h2]
    | some pid =>
      by_cases h3 : pid ≠ "" ∧ (dget st.patient_index pid).isSome = true
      · simp [pass2_entry, h1, h2, h3]
      · simp [pass2_entry, h1, h2, h3]

theorem pass2_entry_refs (st : FHIRStore) (e : BundleEntry) :
    (pass2_entry st e).ref_to_patient_id = st.ref_to_patient_id := by
  by_cases h1 : (entryResource e).resourceType.getD "" = "Patient"
  · simp [pass2_entry, h1]
  · cases h2 : resolve_patient_id st (entryResource e) with
    | none => simp [pass2_entry, h1, h2]
    | some pid =>
      by_cases h3 : pid ≠ "" ∧ (dget st.patient_index pid).isSome = true
      · simp [pass2_entry, h1, h2, h3]
      · simp [pass2_entry, h1, h2, h3]

theorem isSome_dget_pass2_index (st : FHIRStore) (e : BundleEntry) (k : String) :
    (dget (pass2_entry st e).patient_index k).isSome =
      (dget st.patient_index k).isSome := by
  by_cases h1 : (entryResource e).resourceType.getD "" = "Patient"
  · simp [pass2_entry, h1]
  · cases h2 : resolve_patient_id st (entryResource e) with
    | none => simp [pass2_entry, h1, h2]
    | some pid =>
      by_cases h3 : pid ≠ "" ∧ (dget st.patient_index pid).isSome = true
      · simp [pass2_entry, h1, h2, h3, indexAppend, isSome_dget_dmodify]
      · simp [pass2_entry, h1, h2, h3]

theorem keysAligned_pass2_entry {st : FHIRStore} (e : BundleEntry)
    (h : keysAligned st) : keysAligned (pass2_entry st e) := by
  intro k
  rw [pass2_entry_patients, isSome_dget_pass2_index]
  exact h k

theorem keysAligned_pass2_fold {entries : List BundleEntry} :
    ∀ {st : FHIRStore}, keysAligned st → keysAligned (entries.foldl pass2_entry st) := by
  induction entries with
  | nil => intro st h; exact h
  | cons e rest ih =>
    intro st h
    rw [List.foldl_cons]
    exact ih (keysAligned_pass2_entry e h)

theorem keysAligned_load_bundle {st st' : FHIRStore} {b : Bundle}
    (hok : load_bundle st b = .ok st') (h : keysAligned st) : keysAligned st' := by
  unfold load_bundle at hok
  by_cases ht : b.resourceType = some "Bundle"
  · simp only [ht, ne_eq, not_true_eq_false, if_false] at hok
    cases hp1 : pass1 st b.entry with
    | error msg => rw [hp1] at hok; cases hok
    | ok st1 =>
      rw [hp1, except_ok_bind] at hok
      cases hok
      exact keysAligned_pass2_fold (keysAligned_pass1 hp1 h)
  · simp only [ne_eq, ht, not_false_eq_true, if_true] at hok
    cases hok

theorem keysAligned_load_bundles {bundles : List Bundle} :
    ∀ {st0 st : FHIRStore}, (bundles.foldlM load_bundle st0 : Except String FHIRStore) = .ok st →
      keysAligned st0 → keysAligned st := by
  induction bundles with
  | nil =>
    intro st0 st hok h
    rw [List.foldlM_nil] at hok
    cases hok
    exact h
  | cons b rest ih =>
    intro st0 st hok h
    rw [List.foldlM_cons] at hok
    cases hstep : load_bundle st0 b with
    | error msg => rw [hstep] at hok; cases hok
    | ok st1 =>
      rw [hstep, except_ok_bind] at hok
      exact ih hok (keysAligned_load_bundle hstep h)

/-- C6 (amended): in every store produced by loading bundles, an unknown
patient id makes `get_resources` and the conditions/medications/vital
observations accessors return the empty list (and `get_patient` return
`None`), and a known patient id with an unknown resource type also
yields the empty list; none of these lookups fails. -/
theorem lookup_unknown_safe (bundles : List Bundle) (st : FHIRStore)
    (pid rt : String) (h : load_bundles bundles = .ok st)
    (hunk : dget st.patients pid = none) :
    get_patient st pid = none
    ∧ get_resources st pid rt = []
    ∧ get_conditions st pid = []
    ∧ get_medications st pid = []
    ∧ get_observations st pid = []
    ∧ (∀ pid2 rt2 inner, dget st.patient_index pid2 = some inner →
        dget inner rt2 = none → get_resources st pid2 rt2 = []) := by
  have halign : keysAligned st := keysAligned_load_bundles h keysAligned_empty
  have hidx : dget st.patient_index pid = none := by
    have := halign pid
    rw [hunk] at this
    cases hcase : dget st.patient_index pid with
    | none => rfl
    | some x => rw [hcase] at this; simp at this
  have hres : get_resources st pid rt = [] := by
    unfold get_resources
    rw [hidx]
  refine ⟨hunk, hres, ?_, ?_, ?_, ?_⟩
  · unfold get_conditions; unfold get_resources; rw [hidx]
  · unfold get_medications; unfold get_resources; rw [hidx]
  · unfold get_observations; unfold get_resources; rw [hidx]
  · intro pid2 rt2 inner hinner hrt2
    unfold get_resources
    rw [hinner]
    simp [hrt2]

/-- Witness for C6's amended theorem: the store loaded from
`sampleBundle`, probed at an unknown patient id. -/
theorem lookup_unknown_safe_witness :
    get_patient sampleStore "nobody" = none
    ∧ get_resources sampleStore "nobody" "Condition" = []
    ∧ get_conditions sampleStore "nobody" = []
    ∧ get_medications sampleStore "nobody" = []
    ∧ get_observations sampleStore "nobody" = []
    ∧ (∀ pid2 rt2 inner,
        dget sampleStore.patient_index pid2 = some inner →
        dget inner rt2 = none →
        get_resources sampleStore pid2 rt2 = []) :=
  lookup_unknown_safe [sampleBundle] sampleStore "nobody" "Condition" (by decide) (by decide)

/-- C6 (counterexample): on an unknown patient id, `get_patient` does not
return an empty sequence — it returns Python's `None` marker, which is a
different dynamic value than the empty resource list. -/
theorem getPatient_none_not_empty_list :
    get_patient_dyn emptyStore "p1" = PyVal.vnone
    ∧ PyVal.vnone ≠ PyVal.vlist [] := by
  exact ⟨rfl, by simp⟩

end Aegis.Fhir

namespace Aegis.Ingest

/-- A file passing the directory filter is loaded successfully, as text
or as PDF according to its lowered suffix. -/
theorem load_document_supported (rt rp : String → String) (p : String)
    (h : supportedExt p = true) :
    load_document rt rp p =
      .ok (if pyLower (pathSuffix p) = ".pdf" then rp p else rt p) := by
  unfold supportedExt at h
  unfold load_document
  simp only [Bool.or_eq_true, decide_eq_true_eq] at h
  by_cases hpdf : pyLower (pathSuffix p) = ".pdf"
  · simp [hpdf]
  · have htxt : pyLower (pathSuffix p) = ".txt" ∨ pyLower (pathSuffix p) = ".md" := by
      rcases h with (h | h) | h
      · exact Or.inl h
      · exact Or.inr h
      · exact absurd h hpdf
    simp [hpdf, htxt]

/-- The fold of `load_all_documents`, with a generalized accumulator:
it never fails and appends one loaded document per supported path. -/
theorem load_all_documents_go (rt rp : String → String) :
    ∀ (paths : List String) (docs : List LoadedDoc),
      (paths.foldlM
        (fun docs path =>
          if supportedExt path then do
            let text ← load_document rt rp path
            .ok (docs ++ [{ source := lastComponent path, text := text }])
          else .ok docs)
        docs : Except String (List LoadedDoc)) =
      .ok (docs ++ (paths.filter supportedExt).map
        (fun p =>
          { source := lastComponent p,
            text := if pyLower (pathSuffix p) = ".pdf" then rp p else rt p })) := by
  intro paths
  induction paths with
  | nil =>
    intro docs
    simp only [List.foldlM_nil, List.filter_nil, List.map_nil, List.append_nil]
    rfl
  | cons p rest ih =>
    intro docs
    rw [List.foldlM_cons]
    by_cases hs : supportedExt p
    · rw [List.filter_cons_of_pos (by simpa using hs)]
      simp only [hs, if_true, load_document_supported rt rp p hs, except_ok_bind]
      rw [ih]
      simp
    · rw [List.filter_cons_of_neg (by simpa using hs)]
      simp only [if_neg hs, except_ok_bind]
      exact ih docs

/-- C9: `load_all_documents` reads every file of the directory whose
lowered extension is `.txt`, `.md` or `.pdf` (plain text or PDF) and
fails on none of them, while `load_document` on a path with an
unsupported extension fails with the `Unsupported file type` error
naming the offending extension. -/
theorem ingestion_load_spec (rt rp : String → String) (paths : List String)
    (badPath : String) (hbad : supportedExt badPath = false) :
    load_all_documents rt rp paths =
      .ok ((paths.filter supportedExt).map
        (fun p =>
          { source := lastComponent p,
            text := if pyLower (pathSuffix p) = ".pdf" then rp p else rt p }))
    ∧ load_document rt rp badPath =
        .error ("Unsupported file type: " ++ pyLower (pathSuffix badPath) ++
          " (" ++ badPath ++ ")") := by
  constructor
  · have h := load_all_documents_go rt rp paths []
    simpa [load_all_documents] using h
  · unfold supportedExt at hbad
    unfold load_document
    simp only [Bool.or_eq_false_iff, decide_eq_false_iff_not] at hbad
    obtain ⟨⟨h1, h2⟩, h3⟩ := hbad
    simp [h1, h2, h3]

/-- Witness for C9 on a concrete directory listing: `b.txt` and `a.PDF`
are read (the latter through the PDF reader), `notes.docx` and `README`
are filtered out, and loading `notes.docx` directly fails naming
`.docx`. -/
theorem ingestion_load_spec_witness :
    load_all_documents (fun p => "T:" ++ p) (fun p => "P:" ++ p)
        ["a.PDF", "b.txt", "notes.docx", "README"] =
      .ok [{ source := "a.PDF", text := "P:a.PDF" },
           { source := "b.txt", text := "T:b.txt" }]
    ∧ load_document (fun p => "T:" ++ p) (fun p => "P:" ++ p) "notes.docx" =
        .error "Unsupported file type: .docx (notes.docx)" := by
  have h := ingestion_load_spec (fun p => "T:" ++ p) (fun p => "P:" ++ p)
    ["a.PDF", "b.txt", "notes.docx", "README"] "notes.docx" (by decide)
  exact ⟨h.1.trans rfl, h.2.trans rfl⟩

end Aegis.Ingest

namespace Aegis.Nodes

open Aegis.Fhir Aegis.Rag Aegis.Llm

/-- C5: the three node-level short-circuits return their fixed sentinel
values.  The external callers (vector search, MCP tools, LLM evaluator)
are universally quantified, so the sentinel results hold for every
possible external behaviour — no external service influences (or is
needed by) the short-circuit, and nothing is raised (the nodes are total
functions). -/
theorem node_short_circuits
    (search : String → Nat → Rat → List QPoint)
    (cp cc cm cs : String → String)
    (ev : List (String × Json) → Json)
    (state : AgentState)
    (hq : state.retrieval_queries.getD [] = [])
    (hp : state.patient_id.getD "" = "")
    (hr : state.report.getD [] = []) :
    retrieve_guidelines search state = "Nenhuma consulta de diretriz solicitada."
    ∧ fetch_patient_data cp cc cm cs state = "Paciente não identificado."
    ∧ evaluate_report ev state = zeroEvaluation := by
  refine ⟨?_, ?_, ?_⟩
  · simp [retrieve_guidelines, hq]
  · simp [fetch_patient_data, hp]
  · simp [evaluate_report, hr]

/-- Witness for C5 at the fresh input state and concrete stub services. -/
theorem node_short_circuits_witness :
    retrieve_guidelines (fun _ _ _ => []) freshState =
      "Nenhuma consulta de diretriz solicitada."
    ∧ fetch_patient_data (fun _ => "a") (fun _ => "b") (fun _ => "c") (fun _ => "d")
        freshState = "Paciente não identificado."
    ∧ evaluate_report (fun _ => Json.jnull) freshState = zeroEvaluation :=
  node_short_circuits (fun _ _ _ => []) (fun _ => "a") (fun _ => "b") (fun _ => "c")
    (fun _ => "d") (fun _ => Json.jnull) freshState rfl rfl rfl

/-- The matching loop of `_match_patient_id` returns the id of the first
patient in list order whose name matches. -/
theorem matchLoop_eq_find (blob : String) :
    ∀ l : List PatientListing,
      matchLoop blob l = (l.find? (patientNameMatches blob)).map (fun p => p.id) := by
  intro l
  induction l with
  | nil => rfl
  | cons p rest ih =>
    unfold matchLoop
    by_cases h : patientNameMatches blob p
    · rw [if_pos (by simpa using h), List.find?_cons_of_pos _ h]
      rfl
    · rw [if_neg (by simpa using h), List.find?_cons_of_neg _ h, ih]

/-- C4: `parse_note` extracts entities and matches the patient id; the
matcher lowercases all entity text/normalized fields into one blob
(`entityBlob`) and returns the id of the first patient in store load
order with a name token longer than two characters occurring as a
substring of the blob (`patientNameMatches`); with no match the first
patient wins; with no patients the id is the empty string. -/
theorem match_patient_spec (patients : List PatientListing) (entities : List Entity) :
    (∀ (ex : String → Option (List Entity)) (state : AgentState),
        parse_note ex patients state =
          ((ex state.patient_note).getD [],
            match_patient_id patients ((ex state.patient_note).getD [])))
    ∧ match_patient_id patients entities =
        (match patients with
         | [] => ""
         | p0 :: _ =>
           match patients.find? (patientNameMatches (entityBlob entities)) with
           | some p => p.id
           | none => p0.id) := by
  refine ⟨fun ex state => rfl, ?_⟩
  cases patients with
  | nil => rfl
  | cons p0 rest =>
    show (match matchLoop (entityBlob entities) (p0 :: rest) with
          | some pid => pid
          | none => p0.id) =
        (match (p0 :: rest).find? (patientNameMatches (entityBlob entities)) with
          | some p => p.id
          | none => p0.id)
    rw [matchLoop_eq_find]
    cases h : (p0 :: rest).find? (patientNameMatches (entityBlob entities)) with
    | none => simp [h]
    | some p => simp [h]

/-- C10: each per-query retrieval in the guideline fan-out uses a limit
of 3 (not the retriever's `DEFAULT_TOP_K = 5`): whenever the external
search honours its result-count limit, every per-query result list has
at most 3 entries, and the merged candidate list before deduplication
has at most `3 * (number of queries)` entries. -/
theorem per_query_limit (search : String → Nat → Rat → List QPoint)
    (hbound : ∀ q k θ, (search q k θ).length ≤ k) :
    (∀ query, (node_retrieve search query).length ≤ 3)
    ∧ DEFAULT_TOP_K = 5
    ∧ (3 : Nat) ≠ DEFAULT_TOP_K
    ∧ (∀ queries : List String,
        ((queries.map (node_retrieve search)).flatten).length ≤ 3 * queries.length) := by
  have hlen : ∀ query, (node_retrieve search query).length ≤ 3 := by
    intro q
    unfold node_retrieve retrieve
    rw [List.length_map]
    exact hbound q 3 _
  refine ⟨hlen, rfl, by decide, ?_⟩
  intro queries
  induction queries with
  | nil => simp
  | cons q rest ih =>
    rw [List.map_cons, List.flatten_cons, List.length_append]
    have h1 := hlen q
    calc (node_retrieve search q).length + ((rest.map (node_retrieve search)).flatten).length
        ≤ 3 + 3 * rest.length := Nat.add_le_add h1 ih
      _ = 3 * (q :: rest).length := by simp [List.length_cons]; ring

/-- Witness for C10 with a stub search service returning no results. -/
theorem per_query_limit_witness :
    (∀ query, (node_retrieve (fun _ _ _ => []) query).length ≤ 3)
    ∧ DEFAULT_TOP_K = 5
    ∧ (3 : Nat) ≠ DEFAULT_TOP_K
    ∧ (∀ queries : List String,
        ((queries.map (node_retrieve (fun _ _ _ => []))).flatten).length ≤ 3 * queries.length) :=
  per_query_limit (fun _ _ _ => []) (fun _ _ _ => by simp)

end Aegis.Nodes

namespace Aegis.Nodes

open Aegis.Rag

/-- The inner fold of `retrieve_guidelines` over one query's results,
with generalized accumulator: it appends the not-yet-seen chunks (first
occurrence winning) and records their texts as seen. -/
theorem innerFold_eq (l : List RChunk) :
    ∀ (out : List RChunk) (seen : List String),
      l.foldl
        (fun (acc2 : List RChunk × List String) (r : RChunk) =>
          if r.text ∈ acc2.2 then acc2 else (acc2.1 ++ [r], acc2.2 ++ [r.text]))
        (out, seen)
      = (out ++ dedupGo seen l, seen ++ (dedupGo seen l).map (fun r => r.text)) := by
  induction l with
  | nil => intro out seen; simp [dedupGo]
  | cons r rest ih =>
    intro out seen
    rw [List.foldl_cons]
    by_cases h : r.text ∈ seen
    · simp only [h, if_true, dedupGo, ih]
    · simp only [h, if_false, dedupGo, ih, List.map_cons]
      simp [List.append_assoc]

/-- Deduplication distributes over concatenation: the second block is
deduplicated against the seen texts extended with the first block's
surviving texts. -/
theorem dedupGo_append (l1 : List RChunk) :
    ∀ (l2 : List RChunk) (seen : List String),
      dedupGo seen (l1 ++ l2)
        = dedupGo seen l1
          ++ dedupGo (seen ++ (dedupGo seen l1).map (fun r => r.text)) l2 := by
  induction l1 with
  | nil => intro l2 seen; simp [dedupGo]
  | cons r rest ih =>
    intro l2 seen
    by_cases h : r.text ∈ seen
    · rw [List.cons_append]
      rw [show dedupGo seen (r :: (rest ++ l2)) = dedupGo seen (rest ++ l2) by
        simp [dedupGo, h]]
      rw [show dedupGo seen (r :: rest) = dedupGo seen rest by simp [dedupGo, h]]
      exact ih l2 seen
    · rw [List.cons_append]
      rw [show dedupGo seen (r :: (rest ++ l2))
            = r :: dedupGo (seen ++ [r.text]) (rest ++ l2) by simp [dedupGo, h]]
      rw [show dedupGo seen (r :: rest) = r :: dedupGo (seen ++ [r.text]) rest by
        simp [dedupGo, h]]
      rw [ih]
      simp [List.append_assoc]

/-- The outer fold of `retrieve_guidelines` over the query list equals
deduplication of the concatenated per-query results. -/
theorem outerFold_eq (search : String → Nat → Rat → List QPoint) (qs : List String) :
    ∀ (out : List RChunk) (seen : List String),
      qs.foldl
        (fun (acc : List RChunk × List String) query =>
          (node_retrieve search query).foldl
            (fun (acc2 : List RChunk × List String) (r : RChunk) =>
              if r.text ∈ acc2.2 then acc2 else (acc2.1 ++ [r], acc2.2 ++ [r.text]))
            acc)
        (out, seen)
      = (out ++ dedupGo seen ((qs.map (node_retrieve search)).flatten),
         seen ++ (dedupGo seen ((qs.map (node_retrieve search)).flatten)).map
           (fun r => r.text)) := by
  induction qs with
  | nil => intro out seen; simp [dedupGo]
  | cons q rest ih =>
    intro out seen
    rw [List.foldl_cons, innerFold_eq, ih, List.map_cons, List.flatten_cons,
      dedupGo_append]
    simp [List.append_assoc, List.map_append]

/-- The surviving texts after deduplication are pairwise distinct and
disjoint from the seen set. -/
theorem dedupGo_texts_nodup (l : List RChunk) :
    ∀ seen : List String,
      ((dedupGo seen l).map (fun r => r.text)).Nodup
      ∧ ∀ t ∈ (dedupGo seen l).map (fun r => r.text), t ∉ seen := by
  induction l with
  | nil => intro seen; simp [dedupGo]
  | cons r rest ih =>
    intro seen
    by_cases h : r.text ∈ seen
    · simp only [dedupGo, h, if_true]
      exact ih seen
    · simp only [dedupGo, h, if_false, List.map_cons]
      obtain ⟨hnd, hdisj⟩ := ih (seen ++ [r.text])
      refine ⟨List.nodup_cons.mpr ⟨?_, hnd⟩, ?_⟩
      · intro hmem
        exact hdisj r.text hmem (by simp)
      · intro t ht
        rcases List.mem_cons.mp ht with h1 | h1
        · exact h1 ▸ h
        · intro hs
          exact hdisj t h1 (by simp [hs])

/-- C2: `retrieve_guidelines` runs retrieval once per query in list order
and equals the composition: concatenate per-query results, deduplicate
by exact chunk text (first occurrence winning), stable-sort by
descending score, keep the global top 5, format.  The sort is a
permutation and descending; the texts of the final capped list are
pairwise distinct, so a chunk text returned by two different queries
appears at most once in the merged output. -/
theorem retrieve_guidelines_spec (search : String → Nat → Rat → List QPoint)
    (state : AgentState) :
    (state.retrieval_queries.getD [] = [] →
        retrieve_guidelines search state = "Nenhuma consulta de diretriz solicitada.")
    ∧ (∀ q qs, state.retrieval_queries.getD [] = q :: qs →
        retrieve_guidelines search state
          = format_context ((sortByScoreDesc (dedupByText
              (((q :: qs).map (node_retrieve search)).flatten))).take 5))
    ∧ (∀ l : List RChunk, List.Perm (sortByScoreDesc l) l)
    ∧ (∀ l : List RChunk,
        List.Sorted (fun a b : RChunk => b.score ≤ a.score) (sortByScoreDesc l))
    ∧ (((sortByScoreDesc (dedupByText
          (((state.retrieval_queries.getD []).map (node_retrieve search)).flatten))).take
            5).map (fun r => r.text)).Nodup := by
  have hsortperm : ∀ l : List RChunk, List.Perm (sortByScoreDesc l) l := fun l =>
    List.perm_insertionSort _ l
  have hnodup : ∀ J : List RChunk,
      (((sortByScoreDesc (dedupByText J)).take 5).map (fun r => r.text)).Nodup := by
    intro J
    have h1 : ((dedupByText J).map (fun r => r.text)).Nodup :=
      (dedupGo_texts_nodup J []).1
    have h2 : ((sortByScoreDesc (dedupByText J)).map (fun r => r.text)).Nodup :=
      (((hsortperm (dedupByText J)).map (fun r => r.text)).nodup_iff).mpr h1
    have h3 : List.Sublist
        (((sortByScoreDesc (dedupByText J)).take 5).map (fun r => r.text))
        ((sortByScoreDesc (dedupByText J)).map (fun r => r.text)) := by
      rw [List.map_take]
      exact List.take_sublist _ _
    exact h2.sublist h3
  refine ⟨?_, ?_, hsortperm, ?_, hnodup _⟩
  · intro hq
    simp [retrieve_guidelines, hq]
  · intro q qs hq
    show (match state.retrieval_queries.getD [] with
          | [] => "Nenhuma consulta de diretriz solicitada."
          | _ =>
            format_context
              ((sortByScoreDesc
                ((state.retrieval_queries.getD []).foldl
                  (fun (acc : List RChunk × List String) query =>
                    (node_retrieve search query).foldl
                      (fun (acc2 : List RChunk × List String) (r : RChunk) =>
                        if r.text ∈ acc2.2 then acc2
                        else (acc2.1 ++ [r], acc2.2 ++ [r.text]))
                      acc)
                  ([], [])).1).take 5)) = _
    rw [hq]
    show format_context ((sortByScoreDesc
        ((q :: qs).foldl
          (fun (acc : List RChunk × List String) query =>
            (node_retrieve search query).foldl
              (fun (acc2 : List RChunk × List String) (r : RChunk) =>
                if r.text ∈ acc2.2 then acc2
                else (acc2.1 ++ [r], acc2.2 ++ [r.text]))
              acc)
          ([], [])).1).take 5) = _
    rw [outerFold_eq]
    rfl
  · intro l
    exact List.sorted_insertionSort _ l

/-- Witness for C2 with two queries both returning the chunk text
`"dup"`: the fan-out equals the dedup-sort-cap pipeline and the merged
output mentions each text at most once. -/
theorem retrieve_guidelines_spec_witness :
    retrieve_guidelines sampleSearch queriesState
      = format_context ((sortByScoreDesc (dedupByText
          ((["q1", "q2"].map (node_retrieve sampleSearch)).flatten))).take 5)
    ∧ (((sortByScoreDesc (dedupByText
          (((queriesState.retrieval_queries.getD []).map
            (node_retrieve sampleSearch)).flatten))).take 5).map
        (fun r => r.text)).Nodup :=
  ⟨(retrieve_guidelines_spec sampleSearch queriesState).2.1 "q1" ["q2"] rfl,
    (retrieve_guidelines_spec sampleSearch queriesState).2.2.2.2⟩

end Aegis.Nodes

namespace Aegis

/-- Lowercasing preserves whitespace-ness of a character. -/
theorem pyWsB_pyLowerChar (c : Char) : pyWsB (pyLowerChar c) = pyWsB c := by
  unfold pyLowerChar
  split
  all_goals rfl

/-- Lowercasing commutes with dropping a whitespace prefix. -/
theorem map_pyLowerChar_dropWhile (l : List Char) :
    (l.dropWhile pyWsB).map pyLowerChar = (l.map pyLowerChar).dropWhile pyWsB := by
  induction l with
  | nil => rfl
  | cons c rest ih =>
    rw [List.map_cons, List.dropWhile_cons, List.dropWhile_cons, pyWsB_pyLowerChar]
    cases h : pyWsB c
    · simp
    · simp [ih]

/-- Lowercasing commutes with stripping. -/
theorem pyStripList_map_lower (l : List Char) :
    (pyStripList l).map pyLowerChar = pyStripList (l.map pyLowerChar) := by
  unfold pyStripList
  rw [List.map_reverse, map_pyLowerChar_dropWhile, List.map_reverse,
    map_pyLowerChar_dropWhile]

/-- String-level commutation of `lower` and `strip`. -/
theorem pyLower_pyStrip_comm (s : String) :
    pyLower (pyStrip s) = pyStrip (pyLower s) := by
  unfold pyLower pyStrip
  rw [show (String.mk (pyStripList s.toList)).toList = pyStripList s.toList from rfl,
    show (String.mk (s.toList.map pyLowerChar)).toList = s.toList.map pyLowerChar from rfl,
    pyStripList_map_lower]

/-- Dropping a prefix that entirely satisfies the predicate skips it. -/
theorem dropWhile_append_of_all {α : Type} (p : α → Bool) (w l : List α)
    (h : ∀ c ∈ w, p c = true) :
    (w ++ l).dropWhile p = l.dropWhile p := by
  induction w with
  | nil => rfl
  | cons c rest ih =>
    rw [List.cons_append, List.dropWhile_cons, if_pos (h c (by simp))]
    exact ih (fun c hc => h c (by simp [hc]))

/-- When the head block survives `dropWhile`, appending more input does
not change the dropped prefix. -/
theorem dropWhile_append_of_ne {α : Type} (p : α → Bool) (x l : List α)
    (h : x.dropWhile p ≠ []) :
    (x ++ l).dropWhile p = x.dropWhile p ++ l := by
  induction x with
  | nil => exact absurd rfl h
  | cons c rest ih =>
    rw [List.cons_append]
    simp only [List.dropWhile_cons] at h ⊢
    cases hc : p c
    · simp [hc]
    · simp only [hc, if_true] at h ⊢
      exact ih h

/-- Stripping ignores pure-whitespace padding on either side. -/
theorem pyStripList_pad (x w1 w2 : List Char)
    (h1 : ∀ c ∈ w1, pyWsB c = true) (h2 : ∀ c ∈ w2, pyWsB c = true) :
    pyStripList (w1 ++ x ++ w2) = pyStripList x := by
  unfold pyStripList
  rw [List.append_assoc, dropWhile_append_of_all _ w1 _ h1]
  by_cases hx : x.dropWhile pyWsB = []
  · have hallx : ∀ c ∈ x, pyWsB c = true := List.dropWhile_eq_nil_iff.mp hx
    rw [dropWhile_append_of_all _ x _ hallx,
      List.dropWhile_eq_nil_iff.mpr h2, hx]
  · rw [dropWhile_append_of_ne _ _ _ hx, List.reverse_append,
      dropWhile_append_of_all _ w2.reverse _
        (fun c hc => h2 c (List.mem_reverse.mp hc))]

/-- Pointwise-equal predicates find the same first element. -/
theorem findq_congr {α : Type} (p q : α → Bool) (h : ∀ a, p a = q a) :
    ∀ l : List α, l.find? p = l.find? q := by
  intro l
  induction l with
  | nil => rfl
  | cons c rest ih =>
    rw [List.find?_cons, List.find?_cons, h c, ih]

end Aegis

namespace Aegis.Mcp

/-- Strings with the same lowering normalize identically. -/
theorem normalize_congr {a a' : String} (h : pyLower a' = pyLower a) :
    normalize_drug_name a' = normalize_drug_name a := by
  unfold normalize_drug_name
  rw [pyLower_pyStrip_comm, pyLower_pyStrip_comm, h]

/-- Whitespace padding does not change normalization. -/
theorem normalize_pad (a : String) (w1 w2 : List Char)
    (h1 : ∀ c ∈ w1, pyWsB c = true) (h2 : ∀ c ∈ w2, pyWsB c = true) :
    normalize_drug_name (String.mk (w1 ++ a.toList ++ w2)) = normalize_drug_name a := by
  unfold normalize_drug_name pyStrip
  rw [show (String.mk (w1 ++ a.toList ++ w2)).toList = w1 ++ a.toList ++ w2 from rfl,
    pyStripList_pad a.toList w1 w2 h1 h2]

/-- The unordered pair lookup is symmetric in its two arguments. -/
theorem pairLookup_symm (a b : String) : pairLookup a b = pairLookup b a := by
  unfold pairLookup
  have h := findq_congr
    (fun e : (String × String) × String =>
      decide ((e.1.1 = a ∧ e.1.2 = b) ∨ (e.1.1 = b ∧ e.1.2 = a)))
    (fun e : (String × String) × String =>
      decide ((e.1.1 = b ∧ e.1.2 = a) ∨ (e.1.1 = a ∧ e.1.2 = b)))
    (fun e => decide_eq_decide.mpr (by tauto))
    DRUG_INTERACTIONS
  rw [h]

/-- C8 (amended): the drug-interaction verdict is symmetric in argument
order, insensitive to letter case (arguments with equal lowerings are
interchangeable), and insensitive to leading/trailing whitespace in a
drug name — but not to interior whitespace differences, which the
counterexample exhibits. -/
theorem drug_interaction_props :
    (∀ a b, interaction_verdict a b = interaction_verdict b a)
    ∧ (∀ a a' b, pyLower a' = pyLower a →
        interaction_verdict a' b = interaction_verdict a b)
    ∧ (∀ a b (w1 w2 : List Char), (∀ c ∈ w1, pyWsB c = true) →
        (∀ c ∈ w2, pyWsB c = true) →
        interaction_verdict (String.mk (w1 ++ a.toList ++ w2)) b
          = interaction_verdict a b) := by
  refine ⟨?_, ?_, ?_⟩
  · intro a b
    unfold interaction_verdict
    exact pairLookup_symm _ _
  · intro a a' b h
    unfold interaction_verdict
    rw [normalize_congr h]
  · intro a b w1 w2 h1 h2
    unfold interaction_verdict
    rw [normalize_pad a w1 w2 h1 h2]

/-- Witness for C8's amended theorem at concrete drug names: symmetry,
a case variant, and leading/trailing whitespace padding. -/
theorem drug_interaction_props_witness :
    interaction_verdict "Losartana" "ESPIRONOLACTONA"
      = interaction_verdict "ESPIRONOLACTONA" "Losartana"
    ∧ interaction_verdict "LOSARTANA" "espironolactona"
      = interaction_verdict "losartana" "espironolactona"
    ∧ interaction_verdict (String.mk (" ".toList ++ "losartana".toList ++ "  ".toList))
        "espironolactona"
      = interaction_verdict "losartana" "espironolactona" :=
  ⟨drug_interaction_props.1 "Losartana" "ESPIRONOLACTONA",
    drug_interaction_props.2.1 "losartana" "LOSARTANA" "espironolactona" (by decide),
    drug_interaction_props.2.2 "losartana" "espironolactona" " ".toList "  ".toList
      (by decide) (by decide)⟩

/-- C8 (counterexample): two drug-name arguments differing only in
whitespace (an extra interior space) produce different verdicts, so the
verdict is not unchanged under arbitrary whitespace differences. -/
theorem drug_whitespace_cex :
    interaction_verdict "metformina" "contraste iodado"
      = some ("Risco de acidose lática. Suspender metformina 48h antes e após " ++
          "procedimentos com contraste iodado.")
    ∧ interaction_verdict "metformina" "contraste  iodado" = none := by
  exact ⟨by decide, by decide⟩

end Aegis.Mcp


namespace Aegis.Llm

/-- A head character other than an opening brace does not affect the
greedy span. -/
theorem spanOf_cons_ne (c : Char) (rest : List Char) (hc : ¬ c = '{') :
    spanOf (c :: rest) = spanOf rest := by
  unfold spanOf
  rw [List.dropWhile_cons, if_pos (by simpa [notOpenB] using hc)]

/-- With an opening brace in front and a closing brace somewhere after,
the greedy span keeps everything up to the last closing brace. -/
theorem spanOf_open_mem (rest : List Char) (hmem : '}' ∈ rest) :
    spanOf ('{' :: rest)
      = '{' :: (rest.reverse.dropWhile notCloseB).reverse := by
  have hne : rest.reverse.dropWhile notCloseB ≠ [] := by
    intro hnil
    have := List.dropWhile_eq_nil_iff.mp hnil '}' (List.mem_reverse.mpr hmem)
    simp [notCloseB] at this
  unfold spanOf
  rw [List.dropWhile_cons, if_neg (by simp [notOpenB])]
  rw [show ('{' :: rest).reverse = rest.reverse ++ ['{'] by simp]
  rw [dropWhile_append_of_ne _ _ _ hne, List.reverse_append]
  rfl

/-- With an opening brace in front but no closing brace after it, the
greedy span is empty. -/
theorem spanOf_open_nomem (rest : List Char) (hmem : '}' ∉ rest) :
    spanOf ('{' :: rest) = [] := by
  have hall : ∀ x ∈ rest.reverse, notCloseB x = true := by
    intro x hx
    have hxr : x ∈ rest := List.mem_reverse.mp hx
    simp only [notCloseB, decide_eq_true_eq]
    intro he
    subst he
    exact hmem hxr
  unfold spanOf
  rw [List.dropWhile_cons, if_neg (by simp [notOpenB])]
  rw [show ('{' :: rest).reverse = rest.reverse ++ ['{'] by simp]
  rw [dropWhile_append_of_all _ _ _ hall]
  rfl

/-- A text without a closing brace admits no raw-regex match. -/
theorem rawSearch_none_of_no_close (cs : List Char) (h : '}' ∉ cs) :
    rawSearch cs = none := by
  induction cs with
  | nil => rfl
  | cons c rest ih =>
    have hrest : '}' ∉ rest := fun hm => h (List.mem_cons_of_mem _ hm)
    unfold rawSearch
    by_cases hc : c = '{'
    · rw [if_pos hc]
      have hbody : greedyBody rest = none := by
        unfold greedyBody
        rw [List.dropWhile_eq_nil_iff.mpr
          (fun x hx => by
            have hxr : x ∈ rest := List.mem_reverse.mp hx
            simp only [notCloseB, decide_eq_true_eq]
            intro he
            subst he
            exact hrest hxr)]
        simp
      rw [hbody]
      exact ih hrest
    · rw [if_neg hc]
      exact ih hrest

/-- The raw-regex search equals its declarative description: the span
from the first opening brace to the last closing brace, when at least
two characters long. -/
theorem rawSearch_eq_greedySpan : ∀ cs : List Char, rawSearch cs = greedySpanSpec cs := by
  intro cs
  induction cs with
  | nil => rfl
  | cons c rest ih =>
    by_cases hc : c = '{'
    · subst hc
      by_cases hmem : '}' ∈ rest
      · have hne : rest.reverse.dropWhile notCloseB ≠ [] := by
          intro hnil
          have := List.dropWhile_eq_nil_iff.mp hnil '}' (List.mem_reverse.mpr hmem)
          simp [notCloseB] at this
        have hbody : greedyBody rest =
            some ((rest.reverse.dropWhile notCloseB).reverse) := by
          unfold greedyBody
          rw [if_neg (by simpa using hne)]
        unfold rawSearch greedySpanSpec
        rw [if_pos rfl, hbody, spanOf_open_mem rest hmem]
        rw [if_pos (by
          simp only [List.length_cons]
          have hpos : 0 < (rest.reverse.dropWhile notCloseB).length :=
            List.length_pos.mpr hne
          rw [List.length_reverse]
          omega)]
      · have hbody : greedyBody rest = none := by
          unfold greedyBody
          rw [List.dropWhile_eq_nil_iff.mpr
            (fun x hx => by
              have hxr : x ∈ rest := List.mem_reverse.mp hx
              simp only [notCloseB, decide_eq_true_eq]
              intro he
              subst he
              exact hmem hxr)]
          simp
        unfold rawSearch greedySpanSpec
        rw [if_pos rfl, hbody, rawSearch_none_of_no_close rest hmem,
          spanOf_open_nomem rest hmem]
        rfl
    · unfold rawSearch greedySpanSpec
      rw [if_neg hc, spanOf_cons_ne c rest hc, ih]
      rfl

/-- C3 (amended): when structured parsing falls back to text extraction,
the fenced-block regex is tried first; otherwise the raw regex takes the
greedy span from the first `{` to the last `}` of the whole text (not
the first top-level `{...}` span), parsing whatever that span is — so
nested JSON and JSON embedded in prose are recovered, but a span that is
not valid JSON propagates a decode error; when no span exists at all,
the failure is the `ValueError` carrying the fixed message and the text
truncated to 200 characters. -/
theorem extract_json_spec (t : String) :
    rawSearch t.toList = greedySpanSpec t.toList
    ∧ (∀ g, fencedSearch t.toList = some g →
        extract_json t =
          (match json_loads (String.mk g) with
           | some j => .ok j
           | none => .error (.jsonDecode (String.mk g))))
    ∧ (∀ g, fencedSearch t.toList = none → rawSearch t.toList = some g →
        extract_json t =
          (match json_loads (String.mk g) with
           | some j => .ok j
           | none => .error (.jsonDecode (String.mk g))))
    ∧ (fencedSearch t.toList = none → rawSearch t.toList = none →
        extract_json t = .error (.valueError
          ("Could not extract JSON from LLM response: " ++
            String.mk (t.toList.take 200)))) := by
  refine ⟨rawSearch_eq_greedySpan t.toList, ?_, ?_, ?_⟩
  · intro g hf
    unfold extract_json
    rw [hf]
  · intro g hf hr
    unfold extract_json
    rw [hf, hr]
  · intro hf hr
    unfold extract_json
    rw [hf, hr]

/-- C3 (counterexample): on `"a{}b{}c"` the first top-level span, `{}`,
is valid JSON, yet the code matches the greedy span `{}b{}`, whose parse
fails with a decode error — neither the successful extraction of the
first top-level span nor the `NoStructuredDataError` that the claim
predicts for failures. -/
theorem extract_json_cex :
    firstTopLevelSpan "a{}b{}c" = some "{}"
    ∧ json_loads "{}" = some (Json.jobj [])
    ∧ extract_json "a{}b{}c" = .error (.jsonDecode "{}b{}") :=
  ⟨rfl, rfl, rfl⟩

/-- Witness for C3's amended theorem: prose around a braced span is
recovered (`"x{}y"`), and a brace-free text fails with the truncated
`ValueError`; both follow by applying the characterization. -/
theorem extract_json_spec_witness :
    extract_json "x{}y" = .ok (Json.jobj [])
    ∧ extract_json "no braces" = .error (.valueError
        ("Could not extract JSON from LLM response: " ++
          String.mk ("no braces".toList.take 200))) :=
  ⟨((extract_json_spec "x{}y").2.2.1 ['{', '}'] rfl rfl).trans rfl,
    (extract_json_spec "no braces").2.2.2 rfl rfl⟩

/-- The `generate_json` fallback chain: structured content that parses is
returned; otherwise, and on a malformed response shape, extraction runs
on the raw fallback text. -/
theorem generate_json_fallback (raw : String) :
    (∀ content j, json_loads content = some j →
        generate_json (some content) raw = .ok j)
    ∧ (∀ content, json_loads content = none →
        generate_json (some content) raw = extract_json raw)
    ∧ generate_json none raw = extract_json raw := by
  refine ⟨?_, ?_, rfl⟩
  · intro content j h
    show (match json_loads content with
          | some j => (Except.ok j : Except PyErr Json)
          | none => extract_json raw) = Except.ok j
    rw [h]
  · intro content h
    show (match json_loads content with
          | some j => (Except.ok j : Except PyErr Json)
          | none => extract_json raw) = extract_json raw
    rw [h]

end Aegis.Llm

namespace Aegis.Fhir

/-- `get_resources` is the nested index lookup on the store's index. -/
theorem get_resources_eq_indexGet (st : FHIRStore) (pid rt : String) :
    get_resources st pid rt = indexGet st.patient_index pid rt := rfl

/-- Appending one resource under `(pid, rt)` extends exactly that cell of
the index and no other. -/
theorem indexGet_indexAppend (d : List (String × List (String × List Resource)))
    (pid rt : String) (r : Resource) (hpid : (dget d pid).isSome = true)
    (pid' rt' : String) :
    indexGet (indexAppend d pid rt r) pid' rt'
      = indexGet d pid' rt' ++ (if pid' = pid ∧ rt' = rt then [r] else []) := by
  unfold indexGet indexAppend
  by_cases hp : pid = pid'
  · subst hp
    rw [dget_dmodify, if_pos rfl]
    obtain ⟨inner, hinner⟩ := Option.isSome_iff_exists.mp hpid
    rw [hinner]
    simp only [Option.map_some']
    by_cases hr : rt = rt'
    · subst hr
      rw [dget_dmodify, if_pos rfl, dget_dsetdefault_self]
      simp
    · rw [dget_dmodify, if_neg hr, dget_dsetdefault_ne _ _ _ _ hr]
      simp [show ¬ rt' = rt from fun h => hr h.symm]
  · rw [dget_dmodify, if_neg hp]
    have : ¬ (pid' = pid ∧ rt' = rt) := fun hcon => hp hcon.1.symm
    rw [if_neg this, List.append_nil]

/-- `entryTarget` only reads the reference map and the index key set, so
it is stable across stores agreeing on those. -/
theorem entryTarget_congr (st st1 : FHIRStore) (e : BundleEntry)
    (hrefs : st.ref_to_patient_id = st1.ref_to_patient_id)
    (hkeys : ∀ k, (dget st.patient_index k).isSome = (dget st1.patient_index k).isSome) :
    entryTarget st e = entryTarget st1 e := by
  unfold entryTarget resolve_patient_id
  rw [hrefs]
  simp only [hkeys]

/-- The index written by the second pass on one entry, phrased through
`entryTarget`. -/
theorem pass2_entry_index (st : FHIRStore) (e : BundleEntry) :
    (pass2_entry st e).patient_index =
      (match entryTarget st e with
       | some (pid, rt) => indexAppend st.patient_index pid rt (entryResource e)
       | none => st.patient_index) := by
  unfold pass2_entry entryTarget
  by_cases h1 : (entryResource e).resourceType.getD "" = "Patient"
  · simp [h1]
  · cases h2 : resolve_patient_id st (entryResource e) with
    | none => simp [h1, h2]
    | some pid =>
      by_cases h3 : pid ≠ "" ∧ (dget st.patient_index pid).isSome = true
      · simp [h1, h2, h3]
      · simp [h1, h2, h3]

/-- A filed entry's target patient is a key of the index. -/
theorem entryTarget_some_isSome (st1 : FHIRStore) (e : BundleEntry) (p rt0 : String)
    (h : entryTarget st1 e = some (p, rt0)) :
    (dget st1.patient_index p).isSome = true := by
  unfold entryTarget at h
  by_cases h1 : (entryResource e).resourceType.getD "" = "Patient"
  · rw [if_pos h1] at h
    cases h
  · rw [if_neg h1] at h
    cases h2 : resolve_patient_id st1 (entryResource e) with
    | none =>
      rw [h2] at h
      cases h
    | some pid =>
      rw [h2] at h
      have h' : (if pid ≠ "" ∧ (dget st1.patient_index pid).isSome = true then
            some (pid, (entryResource e).resourceType.getD "") else none)
          = some (p, rt0) := h
      by_cases h3 : pid ≠ "" ∧ (dget st1.patient_index pid).isSome = true
      · rw [if_pos h3] at h'
        injection h' with h''
        cases h''
        exact h3.2
      · rw [if_neg h3] at h'
        cases h'

/-- The second pass over a list of entries appends, per `(pid, rt)` cell,
exactly the resources of the entries targeted at that cell, in entry
order. -/
theorem pass2_fold (st1 : FHIRStore) :
    ∀ (entries : List BundleEntry) (st : FHIRStore),
      st.ref_to_patient_id = st1.ref_to_patient_id →
      (∀ k, (dget st.patient_index k).isSome = (dget st1.patient_index k).isSome) →
      ∀ pid rt,
        indexGet (entries.foldl pass2_entry st).patient_index pid rt
          = indexGet st.patient_index pid rt
            ++ (entries.filter
                (fun e => entryTarget st1 e = some (pid, rt))).map entryResource := by
  intro entries
  induction entries with
  | nil =>
    intro st h1 h2 pid rt
    simp
  | cons e rest ih =>
    intro st h1 h2 pid rt
    rw [List.foldl_cons]
    have htgt : entryTarget st e = entryTarget st1 e := entryTarget_congr st st1 e h1 h2
    have h1' : (pass2_entry st e).ref_to_patient_id = st1.ref_to_patient_id := by
      rw [pass2_entry_refs]; exact h1
    have h2' : ∀ k, (dget (pass2_entry st e).patient_index k).isSome
        = (dget st1.patient_index k).isSome := by
      intro k; rw [isSome_dget_pass2_index]; exact h2 k
    rw [ih (pass2_entry st e) h1' h2' pid rt]
    cases htg : entryTarget st1 e with
    | none =>
      have hidx : (pass2_entry st e).patient_index = st.patient_index := by
        rw [pass2_entry_index st e, htgt, htg]
      rw [hidx, List.filter_cons_of_neg (by simp [htg])]
    | some pr =>
      obtain ⟨p, rt0⟩ := pr
      have hpid : (dget st.patient_index p).isSome = true := by
        rw [h2 p]
        exact entryTarget_some_isSome st1 e p rt0 htg
      have hidx : (pass2_entry st e).patient_index
          = indexAppend st.patient_index p rt0 (entryResource e) := by
        rw [pass2_entry_index st e, htgt, htg]
      rw [hidx, indexGet_indexAppend _ _ _ _ hpid pid rt]
      by_cases hpr : pid = p ∧ rt = rt0
      · obtain ⟨hp, hr⟩ := hpr
        subst hp; subst hr
        rw [if_pos ⟨rfl, rfl⟩, List.filter_cons_of_pos (by simp [htg]), List.map_cons]
        simp [List.append_assoc]
      · rw [if_neg hpr, List.append_nil,
          List.filter_cons_of_neg (by
            simp only [htg, decide_eq_true_eq, Option.some.injEq, Prod.mk.injEq]
            intro hcon
            exact hpr ⟨hcon.1.symm, hcon.2.symm⟩)]

/-- After the first pass every per-patient index value is still the empty
inner dict. -/
theorem pass1_index_values_nil {entries : List BundleEntry} :
    ∀ {st st' : FHIRStore}, pass1 st entries = .ok st' →
      (∀ p inner, dget st.patient_index p = some inner → inner = []) →
      (∀ p inner, dget st'.patient_index p = some inner → inner = []) := by
  induction entries with
  | nil =>
    intro st st' hok h
    unfold pass1 at hok
    rw [List.foldlM_nil] at hok
    cases hok
    exact h
  | cons e rest ih =>
    intro st st' hok h
    unfold pass1 at hok
    rw [List.foldlM_cons] at hok
    cases hstep : pass1_entry st e with
    | error msg => rw [hstep] at hok; cases hok
    | ok st2 =>
      rw [hstep, except_ok_bind] at hok
      refine ih hok ?_
      unfold pass1_entry at hstep
      by_cases hp : (entryResource e).resourceType = some "Patient"
      · simp only [hp, if_pos] at hstep
        cases hid : (entryResource e).id with
        | none => rw [hid] at hstep; cases hstep
        | some patient_id =>
          rw [hid] at hstep
          cases hstep
          intro p inner hin
          by_cases hpe : patient_id = p
          · subst hpe
            rw [dget_dsetdefault_self] at hin
            cases hin
            cases hd : dget st.patient_index patient_id with
            | none => simp [hd]
            | some x => simp [hd, h patient_id x hd]
          · rw [dget_dsetdefault_ne _ _ _ _ hpe] at hin
            exact h p inner hin
      · simp only [hp, if_neg, if_false] at hstep
        cases hstep
        exact h

/-- An index whose values are all empty yields empty lookups. -/
theorem indexGet_of_values_nil (d : List (String × List (String × List Resource)))
    (h : ∀ p inner, dget d p = some inner → inner = []) (pid rt : String) :
    indexGet d pid rt = [] := by
  unfold indexGet
  cases hd : dget d pid with
  | none => rfl
  | some inner =>
    rw [h pid inner hd]
    rfl

/-- Two distinct list elements with the same image force the image to
occur at least twice in the mapped list. -/
theorem two_le_count_map {α β : Type} [DecidableEq α] [DecidableEq β]
    (f : α → β) (l : List α) (a b : α) (ha : a ∈ l) (hb : b ∈ l) (hab : a ≠ b)
    (hf : f a = f b) : 2 ≤ (l.map f).count (f a) := by
  induction l with
  | nil => cases ha
  | cons c rest ih =>
    rcases List.mem_cons.mp ha with rfl | ha'
    · have hb' : b ∈ rest := by
        rcases List.mem_cons.mp hb with h | h
        · exact absurd h.symm hab
        · exact h
      have h1 : f a ∈ rest.map f := List.mem_map.mpr ⟨b, hb', hf.symm⟩
      have h2 : 1 ≤ (rest.map f).count (f a) := List.count_pos_iff.mpr h1
      rw [List.map_cons, List.count_cons]
      simp only [beq_self_eq_true, if_true]
      omega
    · rcases List.mem_cons.mp hb with rfl | hb'
      · have h1 : f a ∈ rest.map f := List.mem_map.mpr ⟨a, ha', rfl⟩
        have h2 : 1 ≤ (rest.map f).count (f a) := List.count_pos_iff.mpr h1
        rw [hf] at h2
        rw [List.map_cons, List.count_cons, hf]
        simp only [beq_self_eq_true, if_true]
        omega
      · have h2 := ih ha' hb'
        rw [List.map_cons, List.count_cons]
        omega

/-- Adding an empty inner dict under a (possibly fresh) key never
changes any nested index lookup. -/
theorem indexGet_dsetdefault_nil (d : List (String × List (String × List Resource)))
    (k pid rt : String) :
    indexGet (dsetdefault d k ([] : List (String × List Resource))) pid rt
      = indexGet d pid rt := by
  unfold indexGet
  by_cases hk : k = pid
  · subst hk
    rw [dget_dsetdefault_self]
    cases hd : dget d k with
    | some inner => simp [hd]
    | none => simp [hd, dget]
  · rw [dget_dsetdefault_ne _ _ _ _ hk]

/-- The first pass only registers patients and empty index cells: it
never changes the result of any nested index lookup, whatever the prior
store held. -/
theorem pass1_indexGet {entries : List BundleEntry} :
    ∀ {st st' : FHIRStore}, pass1 st entries = .ok st' →
      ∀ pid rt, indexGet st'.patient_index pid rt = indexGet st.patient_index pid rt := by
  induction entries with
  | nil =>
    intro st st' hok pid rt
    unfold pass1 at hok
    rw [List.foldlM_nil] at hok
    cases hok
    rfl
  | cons e rest ih =>
    intro st st' hok pid rt
    unfold pass1 at hok
    rw [List.foldlM_cons] at hok
    cases hstep : pass1_entry st e with
    | error msg => rw [hstep] at hok; cases hok
    | ok st2 =>
      rw [hstep, except_ok_bind] at hok
      rw [ih hok pid rt]
      unfold pass1_entry at hstep
      by_cases hp : (entryResource e).resourceType = some "Patient"
      · simp only [hp, if_pos] at hstep
        cases hid : (entryResource e).id with
        | none => rw [hid] at hstep; cases hstep
        | some patient_id =>
          rw [hid] at hstep
          cases hstep
          exact indexGet_dsetdefault_nil _ _ pid rt
      · simp only [hp, if_neg, if_false] at hstep
        cases hstep
        rfl

/-- C1: loading a bundle (with a recognized envelope and well-formed
Patient entries) into an arbitrary pre-load store — the additive regime,
where the alias map grows incrementally across bundles — never fails on
unresolvable subject references, and each `(patient, resource type)`
index cell after the load is its prior contents followed by exactly the
resources of this bundle's entries the second pass targets at that cell
(those whose subject resolves, through the alias map or the
`Patient/<id>` fallback, to a patient known to the store — including
patients from earlier bundles), in entry order.  Consequently a
resolvable resource occurring once in the bundle adds exactly one
occurrence to its patient's per-type index (exactly one when not
already present) and none elsewhere, and an unresolvable resource adds
no occurrence to any index cell. -/
theorem load_bundle_index (st0 : FHIRStore) (b : Bundle) (st1 : FHIRStore)
    (hType : b.resourceType = some "Bundle")
    (hPass1 : pass1 st0 b.entry = .ok st1) :
    load_bundle st0 b = .ok (b.entry.foldl pass2_entry st1)
    ∧ (∀ pid rt,
        get_resources (b.entry.foldl pass2_entry st1) pid rt
          = get_resources st0 pid rt
            ++ (b.entry.filter
                (fun e => entryTarget st1 e = some (pid, rt))).map entryResource)
    ∧ (∀ e ∈ b.entry, entryTarget st1 e = none →
        (∀ e2 ∈ b.entry, entryResource e2 = entryResource e → entryTarget st1 e2 = none) →
        ∀ pid rt,
          (get_resources (b.entry.foldl pass2_entry st1) pid rt).count (entryResource e)
            = (get_resources st0 pid rt).count (entryResource e)
          ∧ (entryResource e ∉ get_resources st0 pid rt →
              entryResource e ∉ get_resources (b.entry.foldl pass2_entry st1) pid rt))
    ∧ (∀ e ∈ b.entry, ∀ pid rt, entryTarget st1 e = some (pid, rt) →
        (b.entry.map entryResource).count (entryResource e) = 1 →
        ((get_resources (b.entry.foldl pass2_entry st1) pid rt).count (entryResource e)
            = (get_resources st0 pid rt).count (entryResource e) + 1
          ∧ (entryResource e ∉ get_resources st0 pid rt →
              (get_resources (b.entry.foldl pass2_entry st1) pid rt).count
                (entryResource e) = 1)
          ∧ ∀ pid2 rt2, ¬ (pid2 = pid ∧ rt2 = rt) →
              (get_resources (b.entry.foldl pass2_entry st1) pid2 rt2).count
                  (entryResource e)
                = (get_resources st0 pid2 rt2).count (entryResource e))) := by
  have hchar : ∀ pid rt,
      get_resources (b.entry.foldl pass2_entry st1) pid rt
        = get_resources st0 pid rt
          ++ (b.entry.filter
              (fun e => entryTarget st1 e = some (pid, rt))).map entryResource := by
    intro pid rt
    rw [get_resources_eq_indexGet,
      pass2_fold st1 b.entry st1 rfl (fun _ => rfl) pid rt,
      pass1_indexGet hPass1 pid rt]
    rfl
  refine ⟨?_, hchar, ?_, ?_⟩
  · unfold load_bundle
    rw [if_neg (by simp [hType]), hPass1, except_ok_bind]
  · intro e he htgt hall pid rt
    have hnot : entryResource e ∉
        (b.entry.filter
          (fun e2 => entryTarget st1 e2 = some (pid, rt))).map entryResource := by
      intro hmem
      obtain ⟨e2, he2, hres⟩ := List.mem_map.mp hmem
      have he2' := List.mem_filter.mp he2
      have h0 := hall e2 he2'.1 hres
      rw [h0] at he2'
      simp at he2'
    constructor
    · rw [hchar pid rt, List.count_append, List.count_eq_zero.mpr hnot]
      omega
    · intro hnm hmem
      rw [hchar pid rt] at hmem
      rcases List.mem_append.mp hmem with h | h
      · exact hnm h
      · exact hnot h
  · intro e he pid rt htgt hcount
    have hmem_f : entryResource e ∈
        (b.entry.filter
          (fun e2 => entryTarget st1 e2 = some (pid, rt))).map entryResource :=
      List.mem_map.mpr ⟨e, List.mem_filter.mpr ⟨he, by simp [htgt]⟩, rfl⟩
    have hone : ((b.entry.filter
        (fun e2 => entryTarget st1 e2 = some (pid, rt))).map entryResource).count
          (entryResource e) = 1 := by
      have hle : ((b.entry.filter
          (fun e2 => entryTarget st1 e2 = some (pid, rt))).map entryResource).count
            (entryResource e)
          ≤ (b.entry.map entryResource).count (entryResource e) :=
        ((List.filter_sublist b.entry).map entryResource).count_le _
      have hge : 0 < ((b.entry.filter
          (fun e2 => entryTarget st1 e2 = some (pid, rt))).map entryResource).count
            (entryResource e) :=
        List.count_pos_iff.mpr hmem_f
      omega
    have helse : ∀ pid2 rt2, ¬ (pid2 = pid ∧ rt2 = rt) →
        entryResource e ∉
          (b.entry.filter
            (fun e2 => entryTarget st1 e2 = some (pid2, rt2))).map entryResource := by
      intro pid2 rt2 hne hmem
      obtain ⟨e2, he2, hres⟩ := List.mem_map.mp hmem
      have he2' := List.mem_filter.mp he2
      have htgt2 : entryTarget st1 e2 = some (pid2, rt2) := by
        have := he2'.2
        simpa using this
      have hne2 : e2 ≠ e := by
        intro heq
        rw [heq, htgt] at htgt2
        have : pid2 = pid ∧ rt2 = rt := by
          obtain ⟨h1, h2⟩ := Prod.mk.injEq .. ▸ (Option.some.injEq .. ▸ htgt2.symm)
          exact ⟨h1, h2⟩
        exact hne this
      have h2 := two_le_count_map entryResource b.entry e2 e he2'.1 he hne2 hres
      rw [hres] at h2
      omega
    refine ⟨?_, ?_, ?_⟩
    · rw [hchar pid rt, List.count_append, hone]
    · intro hnm
      rw [hchar pid rt, List.count_append, hone, List.count_eq_zero.mpr hnm]
    · intro pid2 rt2 hne
      rw [hchar pid2 rt2, List.count_append,
        List.count_eq_zero.mpr (helse pid2 rt2 hne)]
      omega

/-- Witness for C1 in the additive regime: after `sampleBundle` is
loaded, a second bundle with no patients of its own contributes one
observation whose `Patient/p1` subject resolves through the alias map
to the patient of the first bundle; the load succeeds, the observation
lands exactly once in that patient's Observation cell, and no other
cell changes. -/
theorem load_bundle_index_witness :
    load_bundle sampleStore secondBundle
      = .ok (secondBundle.entry.foldl pass2_entry sampleStore)
    ∧ (∀ pid rt,
        get_resources (secondBundle.entry.foldl pass2_entry sampleStore) pid rt
          = get_resources sampleStore pid rt
            ++ (secondBundle.entry.filter
                (fun e => entryTarget sampleStore e = some (pid, rt))).map entryResource)
    ∧ (get_resources (secondBundle.entry.foldl pass2_entry sampleStore)
          "p1" "Observation").count crossRefObservation = 1
    ∧ (∀ pid rt, ¬ (pid = "p1" ∧ rt = "Observation") →
        (get_resources (secondBundle.entry.foldl pass2_entry sampleStore) pid rt).count
            crossRefObservation
          = (get_resources sampleStore pid rt).count crossRefObservation) := by
  have h := load_bundle_index sampleStore secondBundle sampleStore rfl (by decide)
  refine ⟨h.1, h.2.1, ?_, ?_⟩
  · exact (h.2.2.2 { fullUrl := none, resource := some crossRefObservation } (by decide)
      "p1" "Observation" (by decide) (by decide)).2.1 (by decide)
  · intro pid rt hne
    exact (h.2.2.2 { fullUrl := none, resource := some crossRefObservation } (by decide)
      "p1" "Observation" (by decide) (by decide)).2.2 pid rt hne

end Aegis.Fhir
